import Mathlib

/-!
Verification of the "Event Listing via RSS" module
(src/_resources20/js/modules/EventListingViaRss.ts).

The TypeScript module is shallowly embedded below.  Modelling conventions:

* JS strings are Lean `String`s; JS `s < t` string comparison (UTF-16
  code-unit lexicographic) is `charListLt` on `String.data` via `Char.toNat`
  (all data here is ASCII plus a few BMP code points, code unit = code point).
* `Date.parse` / `new Date(string)` are modelled by `jsDateParse` for the
  module's documented input grammar ("ISO format (YYYY-MM-DD or
  YYYY-MM-DDTHH:MM)", see the jsdoc of `eventWithinDateRange`): a full date
  `YYYY-MM-DD`, optionally followed by `THH:MM`.  Everything else is NaN
  (`none`).  The host's local time zone is modelled as UTC, so a bare date
  (UTC per ECMAScript) and an appended `T00:00` (local) coincide.
  `timeValue` is the millisecond time value (epoch 1970-01-01T00:00Z),
  computed by the standard civil-from-days arithmetic.
* A JS `number` that may be NaN is an `Option Int`; NaN comparisons are
  false (`jsLeN`).
* Values typed `string | null` are `Option String`; values typed
  `string | null | undefined` are `Option (Option String)`
  (`none` = undefined, `some none` = null).
* Calls to the external error sink `LogError` are collected in a
  `List String` component of the result (the sink is write-only).
* Thrown exceptions are `Except.error` with the error message.
-/

/-! ## Definitions: the embedded module, claim-side definitions, fixtures -/

/-- JS `<` on two characters compares code units; model via `Char.toNat`. -/
def charLtB (a b : Char) : Bool := a.toNat < b.toNat

/-- JS string comparison `s < t`: code-unit lexicographic order. -/
def charListLt : List Char → List Char → Bool
  | [], [] => false
  | [], _ :: _ => true
  | _ :: _, [] => false
  | a :: as, b :: bs =>
    if charLtB a b then true
    else if charLtB b a then false
    else charListLt as bs

/-- Decimal digit test, `'0' ≤ c ≤ '9'`. -/
def isDigitB (c : Char) : Bool := 48 ≤ c.toNat && c.toNat ≤ 57

/-- Numeric value of a digit character. -/
def dv (c : Char) : Nat := c.toNat - 48

/-- The civil date-time fields held by a valid JS `Date` in our grammar
(seconds and milliseconds are always zero). -/
structure JsDT where
  year : Nat
  month : Nat
  day : Nat
  hour : Nat
  minute : Nat
deriving DecidableEq, Repr

/-- Gregorian leap-year rule. -/
def isLeap (y : Nat) : Bool := (y % 4 = 0 && y % 100 != 0) || y % 400 = 0

/-- Days in a month of the proleptic Gregorian calendar. -/
def daysInMonth (y m : Nat) : Nat :=
  match m with
  | 2 => if isLeap y then 29 else 28
  | 4 => 30
  | 6 => 30
  | 9 => 30
  | 11 => 30
  | _ => 31

/-- Read two decimal digit characters as a number. -/
def read2 : List Char → Option (Nat × List Char)
  | a :: b :: rest =>
    if isDigitB a && isDigitB b then some (10 * dv a + dv b, rest) else none
  | _ => none

/-- Read four decimal digit characters as a number. -/
def read4 (l : List Char) : Option (Nat × List Char) :=
  match read2 l with
  | none => none
  | some (hi, l1) =>
    match read2 l1 with
    | none => none
    | some (lo, l2) => some (100 * hi + lo, l2)

/-- Consume one expected character. -/
def expectChar (c : Char) : List Char → Option (List Char)
  | x :: rest => if x = c then some rest else none
  | _ => none

/-- Parse a 16-character `YYYY-MM-DDTHH:MM` string (the ECMAScript Date Time
String Format instance used by the module), validating field ranges the way
the ISO fast path of `Date.parse` does. -/
def parse16 (l : List Char) : Option JsDT :=
  match read4 l with
  | none => none
  | some (y, l1) =>
  match expectChar '-' l1 with
  | none => none
  | some l2 =>
  match read2 l2 with
  | none => none
  | some (mo, l3) =>
  match expectChar '-' l3 with
  | none => none
  | some l4 =>
  match read2 l4 with
  | none => none
  | some (d, l5) =>
  match expectChar 'T' l5 with
  | none => none
  | some l6 =>
  match read2 l6 with
  | none => none
  | some (h, l7) =>
  match expectChar ':' l7 with
  | none => none
  | some l8 =>
  match read2 l8 with
  | none => none
  | some (mi, l9) =>
  match l9 with
  | [] =>
    if 1 ≤ mo && mo ≤ 12 && 1 ≤ d && d ≤ daysInMonth y mo && h ≤ 23 && mi ≤ 59
    then some ⟨y, mo, d, h, mi⟩ else none
  | _ :: _ => none

/-- The characters `"T00:00"`. -/
def tSuf00 : List Char := ['T', '0', '0', ':', '0', '0']

/-- `Date.parse` / `new Date(s)` on list-of-chars level: a bare 10-character
date is UTC midnight (same fields as appending `T00:00`); a 16-character
date-time is taken at face value (local = UTC in this model); anything
outside the documented grammar is an invalid date (`none` = NaN). -/
def jsDateParseL (l : List Char) : Option JsDT :=
  if l.length = 10 then parse16 (l ++ tSuf00) else parse16 l

/-- `Date.parse` / `new Date(s)` on strings. -/
def jsDateParse (s : String) : Option JsDT := jsDateParseL s.data

/-- Days since 1970-01-01 of a proleptic-Gregorian civil date (standard
era/year-of-era computation, shifted by 400 years to stay in `Nat`).
Valid for the 4-digit years of the grammar. -/
def daysFromCivil (y m d : Nat) : Int :=
  let ys : Nat := if m ≤ 2 then y + 399 else y + 400
  let era : Nat := ys / 400
  let yoe : Nat := ys % 400
  let mp : Nat := (m + 9) % 12
  let doy : Nat := (153 * mp + 2) / 5 + d - 1
  let doe : Nat := yoe * 365 + yoe / 4 - yoe / 100 + doy
  (era * 146097 + doe : Int) - 865565

/-- The JS time value (milliseconds since the epoch) of a parsed date. -/
def timeValue (dt : JsDT) : Int :=
  daysFromCivil dt.year dt.month dt.day * 86400000
    + dt.hour * 3600000 + dt.minute * 60000

/-- `Number.MIN_SAFE_INTEGER`. -/
def minSafeInteger : Int := -9007199254740991

/-- `Number.MAX_SAFE_INTEGER`. -/
def maxSafeInteger : Int := 9007199254740991

/-- `≤` on JS numbers that may be NaN (`none`): any comparison with NaN is
false. -/
def jsLeN : Option Int → Option Int → Bool
  | some x, some y => x ≤ y
  | _, _ => false

/-- `eventStart.indexOf('T') === -1` negated: the string has a `'T'`. -/
def hasT (s : String) : Bool := s.data.contains 'T'

/-- The event start string with the module's bare-date start normalization
(`+ "T00:00"` when there is no time component). -/
def normStart (s : String) : String := if hasT s then s else s ++ "T00:00"

/-- The event end string with the module's bare-date end normalization
(`+ "T23:59"` when there is no time component). -/
def normEnd (s : String) : String := if hasT s then s else s ++ "T23:59"

/-- `eventStartNum` of `eventWithinDateRange`. -/
def eventStartNum (eventStart : String) : Option Int :=
  (jsDateParse (normStart eventStart)).map timeValue

/-- `eventEndNum` of `eventWithinDateRange`. -/
def eventEndNum (eventEnd : String) : Option Int :=
  (jsDateParse (normEnd eventEnd)).map timeValue

/-- `beginDateRangeNum` of `eventWithinDateRange`: an absent range begin is
`Number.MIN_SAFE_INTEGER`. -/
def beginDateRangeNum : Option String → Option Int
  | some b => (jsDateParse b).map timeValue
  | none => some minSafeInteger

/-- `endDateRangeNum` of `eventWithinDateRange`: an absent range end is
`Number.MAX_SAFE_INTEGER`. -/
def endDateRangeNum : Option String → Option Int
  | some r => (jsDateParse r).map timeValue
  | none => some maxSafeInteger

/-- `eventWithinDateRange(eventStart, eventEnd, beginDateRange, endDateRange)`.
First component: the returned boolean; second: the messages sent to the
error sink (`LogError`).  A null start or end logs and returns false; the
range test is `eventStartNum <= endDateRangeNum && beginDateRangeNum <=
eventEndNum` on possibly-NaN numbers. -/
def eventWithinDateRange (eventStart eventEnd : Option String)
    (beginDateRange endDateRange : Option String) : Bool × List String :=
  match eventStart, eventEnd with
  | some es, some ee =>
    (jsLeN (eventStartNum es) (endDateRangeNum endDateRange)
       && jsLeN (beginDateRangeNum beginDateRange) (eventEndNum ee), [])
  | _, _ => (false, ["Event start or end is null"])

/-- JS `parseInt(s)` (radix unspecified): strip whitespace, optional sign,
optional `0x`/`0X` hex prefix, then the longest digit prefix; NaN (`none`)
when no digits follow. -/
def parseIntJs (s : String) : Option Int :=
  let l := s.data.dropWhile (fun c => c = ' ' || c = '\t' || c = '\n' || c = '\r')
  let (sgn, l) : Int × List Char :=
    match l with
    | '-' :: r => (-1, r)
    | '+' :: r => (1, r)
    | _ => (1, l)
  match l with
  | '0' :: 'x' :: r | '0' :: 'X' :: r =>
    let ds := r.takeWhile fun c => isDigitB c ||
      (97 ≤ c.toNat && c.toNat ≤ 102) || (65 ≤ c.toNat && c.toNat ≤ 70)
    if ds = [] then none
    else some (sgn * (ds.foldl (fun a c =>
      16 * a + (if isDigitB c then dv c
                else if 97 ≤ c.toNat then c.toNat - 87 else c.toNat - 55)) 0 : Nat))
  | _ =>
    let ds := l.takeWhile fun c => isDigitB c
    if ds = [] then none
    else some (sgn * (ds.foldl (fun a c => 10 * a + dv c) 0 : Nat))

/-- JS `arr.slice(0, n)`: a negative end index counts from the end of the
array (clamped at 0); a large one is clamped to the length. -/
def jsSlice {α : Type} (l : List α) (n : Int) : List α :=
  if n < 0 then l.take (l.length - n.natAbs) else l.take n.toNat

/-- A raw `<item>` of the parsed feed document, as the module reads it:
`start`/`end` are `none` when the item has no such namespaced element and
`some t` for the first element's `textContent` (`t : Option String`, since
`textContent` is typed `string | null`).  `title`/`description`/`link` come
from `item.querySelector(..)?.textContent : string | null | undefined`. -/
structure RawItem where
  start : Option (Option String)
  end_ : Option (Option String)
  title : Option (Option String)
  description : Option (Option String)
  link : Option (Option String)
deriving DecidableEq, Repr

/-- The `CalendarEvent` interface of the module. -/
structure CalendarEvent where
  start : Option String
  end_ : Option String
  title : Option (Option String)
  description : Option (Option String)
  link : Option (Option String)
deriving DecidableEq, Repr

/-- The filtering loop of `getEvents`: skip items lacking a start or end
element, test the rest with `eventWithinDateRange`, and keep the survivors
(in feed order).  Second component: error-sink messages from the filter. -/
def surviveFilter :
    List RawItem → Option String → Option String →
    List CalendarEvent × List String
  | [], _, _ => ([], [])
  | it :: rest, dataBegin, dataEnd =>
    let tail := (surviveFilter rest dataBegin dataEnd).1
    let logs := (surviveFilter rest dataBegin dataEnd).2
    match it.start, it.end_ with
    | some st, some en =>
      let r := eventWithinDateRange st en dataBegin dataEnd
      if r.1 then
        (⟨st, en, it.title, it.description, it.link⟩ :: tail, r.2 ++ logs)
      else (tail, r.2 ++ logs)
    | _, _ => (tail, logs)

/-- The sort comparator of `getEvents` as a strict "a before b" test:
null starts first, then JS string order on the start strings. -/
def startLt (a b : CalendarEvent) : Bool :=
  match a.start, b.start with
  | none, none => false
  | none, some _ => true
  | some _, none => false
  | some s, some t => charListLt s.data t.data

/-- Stable insertion used to model `Array.prototype.sort` (stable per
ES2019): a later element is placed after every earlier element that does
not compare strictly greater. -/
def insertEvent (x : CalendarEvent) : List CalendarEvent → List CalendarEvent
  | [] => [x]
  | y :: ys => if startLt y x then y :: insertEvent x ys else x :: y :: ys

/-- Stable sort by the `getEvents` comparator. -/
def sortEvents : List CalendarEvent → List CalendarEvent
  | [] => []
  | x :: xs => insertEvent x (sortEvents xs)

/-- The `numEventsToDisplay` initialization of `getEvents`: 2 unless the
count attribute is present and `parseInt` of it is not NaN. -/
def parsedCount : Option String → Int
  | some c => match parseIntJs c with | some n => n | none => 2
  | none => 2

/-- `getEvents(doc, dataBegin, dataEnd, dataCount)` (the document is
abstracted to its list of `<item>`s).  First component: the returned
events; second: error-sink messages. -/
def getEvents (items : List RawItem)
    (dataBegin dataEnd dataCount : Option String) :
    List CalendarEvent × List String :=
  let events := (surviveFilter items dataBegin dataEnd).1
  let logs := (surviveFilter items dataBegin dataEnd).2
  let numEventsToDisplay : Int := parsedCount dataCount
  let numEventsToDisplay : Int :=
    if (events.length : Int) < numEventsToDisplay then (events.length : Int)
    else numEventsToDisplay
  if events.length = 0 then ([], logs)
  else
    let sorted := if events.length > 1 then sortEvents events else events
    (jsSlice sorted numEventsToDisplay, logs)

/-- Short month names produced by
`toLocaleString("en-US", {month: "short"})`. -/
def monthShortNames : List String :=
  ["Jan", "Feb", "Mar", "Apr", "May", "Jun",
   "Jul", "Aug", "Sep", "Oct", "Nov", "Dec"]

/-- `date.toLocaleString("en-US", {month: "short"})`; an invalid date
formats as `"Invalid Date"`. -/
def monthShortOf (d : Option JsDT) : String :=
  match d with
  | none => "Invalid Date"
  | some dt => monthShortNames.getD (dt.month - 1) "Invalid Date"

/-- `date.toLocaleString("en-US", {day: "numeric"})`. -/
def dayNumericOf (d : Option JsDT) : String :=
  match d with
  | none => "Invalid Date"
  | some dt => toString dt.day

/-- `date.toLocaleString("en-US", {year: "numeric"})`. -/
def yearNumericOf (d : Option JsDT) : String :=
  match d with
  | none => "Invalid Date"
  | some dt => toString dt.year

/-- Two-digit zero-padded minutes. -/
def pad2 (n : Nat) : String := if n < 10 then "0" ++ toString n else toString n

/-- `date.toLocaleString("en-US", {timeStyle: "short"})`: 12-hour clock
`h:mm AM`/`h:mm PM` (the space modelled as an ordinary space). -/
def timeShortOf (d : Option JsDT) : String :=
  match d with
  | none => "Invalid Date"
  | some dt =>
    let r := dt.hour % 12
    let h12 := if r = 0 then 12 else r
    toString h12 ++ ":" ++ pad2 dt.minute ++ " "
      ++ (if dt.hour < 12 then "AM" else "PM")

/-- Scanner for the global replacement `html.replace(/<[\s\S]+?>/g, " ")`.
State `none`: outside any candidate match.  State `some buf`: a `'<'` was
seen and `buf` holds (reversed) the characters consumed so far by the
candidate match; a `'>'` closes it once at least one character stands
between the brackets (the `+?` requires one), and end-of-input flushes the
buffer verbatim (an unclosed `'<'` matches nothing — nothing after it can
match either, as no `'>'` remains). -/
def stripTagsGo : Option (List Char) → List Char → List Char
  | none, [] => []
  | none, c :: rest =>
    if c = '<' then stripTagsGo (some [c]) rest else c :: stripTagsGo none rest
  | some buf, [] => buf.reverse
  | some buf, c :: rest =>
    if c = '>' && 2 ≤ buf.length then ' ' :: stripTagsGo none rest
    else stripTagsGo (some (c :: buf)) rest

/-- `html.replace(/<[\s\S]+?>/g, " ")`: each minimal `<...>` span (at
least one character between the brackets) becomes a single space. -/
def stripTags (l : List Char) : List Char := stripTagsGo none l

/-- The global replacement `.replace(/  +/g, " ")`: every run of two or
more spaces collapses to one space (a space directly followed by another
space is dropped). -/
def collapseSpaces : List Char → List Char
  | [] => []
  | [c] => [c]
  | a :: b :: rest =>
    if a = ' ' && b = ' ' then collapseSpaces (b :: rest)
    else a :: collapseSpaces (b :: rest)

/-- The JS `String.prototype.trim` whitespace set (the code points
occurring in practice). -/
def jsWhitespace (c : Char) : Bool :=
  c = ' ' || c = '\t' || c = '\n' || c = '\r'
    || c.toNat = 11 || c.toNat = 12 || c.toNat = 160 || c.toNat = 65279

/-- `s.trim()` on the character list. -/
def jsTrimL (l : List Char) : List Char :=
  ((l.dropWhile jsWhitespace).reverse.dropWhile jsWhitespace).reverse

/-- `removeTags(html)`: null/undefined yield `""`; otherwise strip tags to
spaces, collapse multi-space runs, and trim. -/
def removeTags (html : Option (Option String)) : String :=
  match html with
  | some (some s) => String.mk (jsTrimL (collapseSpaces (stripTags s.data)))
  | _ => ""

/-- JS template-literal interpolation of a `string | null | undefined`. -/
def jsTemplate (o : Option (Option String)) : String :=
  match o with
  | none => "undefined"
  | some none => "null"
  | some (some s) => s

/-- The per-event body of the `getHtml` loop; a null start or end hits the
`"Event date is invalid"` branch (logged and thrown, modelled as
`Except.error`). -/
def eventHtmlE (event : CalendarEvent) (dataShowYear : Option String) :
    Except String String :=
  match event.start, event.end_ with
  | some s, some e =>
    let hasTime : Bool := hasT s && hasT e
    let startDate := jsDateParse (normStart s)
    let endDate := jsDateParse (normEnd e)
    let startMonthStr := monthShortOf startDate
    let startDayStr := dayNumericOf startDate
    let startYearStr := yearNumericOf startDate
    let endMonthStr := monthShortOf endDate
    let endDayStr := dayNumericOf endDate
    let endYearStr := yearNumericOf endDate
    let outTimeStr := timeShortOf startDate ++ " - " ++ timeShortOf endDate
    let outMonthStr :=
      if startMonthStr ≠ endMonthStr then startMonthStr ++ "-" ++ endMonthStr
      else startMonthStr
    let outDayStr :=
      if startDayStr ≠ endDayStr then startDayStr ++ "-" ++ endDayStr
      else startDayStr
    let outYearStr :=
      if startYearStr ≠ endYearStr then startYearStr ++ "-" ++ endYearStr
      else startYearStr
    let showYear : Bool :=
      match dataShowYear with
      | none => false
      | some v => v = "true"
    Except.ok (
      "\n                <div class=\"eventWrap columns col2\">\n                    <div class=\"date\">\n                        <div class=\"dateWrap\"><span class=\"month\">"
      ++ outMonthStr ++ "</span><span class=\"day\">" ++ outDayStr
      ++ "</span>\n            "
      ++ (if showYear then
            "\n                            <span class=\"year\">"
            ++ outYearStr ++ "</span>\n                "
          else "")
      ++ "\n                        </div>\n                    </div>\n                    <div class=\"eventDescription\">\n                        <div class=\"title\"><a href=\""
      ++ jsTemplate event.link ++ "\">" ++ jsTemplate event.title
      ++ "</a></div>\n            "
      ++ (if hasTime then
            "\n                        <div class=\"time\">" ++ outTimeStr
            ++ "</div>\n                "
          else "")
      ++ "\n                        <div class=\"description\"><span>"
      ++ removeTags event.description
      ++ "</span></div>\n                        <div class=\"read-more\"><a href=\""
      ++ jsTemplate event.link
      ++ "\">Read more ≫</a></div>\n                    </div>\n                </div>\n            ")
  | _, _ => Except.error "Event date is invalid"

/-- The loop of `getHtml`, concatenating per-event fragments and
propagating the thrown error. -/
def eventsHtml (events : List CalendarEvent) (dataShowYear : Option String) :
    Except String String :=
  match events with
  | [] => Except.ok ""
  | e :: es =>
    match eventHtmlE e dataShowYear with
    | Except.error m => Except.error m
    | Except.ok h =>
      match eventsHtml es dataShowYear with
      | Except.error m => Except.error m
      | Except.ok rest => Except.ok (h ++ rest)

/-- `getHtml(events, dataShowYear)`: the fallback text on an empty list,
otherwise the wrapped per-event fragments (or the thrown error). -/
def getHtml (events : List CalendarEvent) (dataShowYear : Option String) :
    Except String String :=
  if events.length = 0 then Except.ok "There are no events to display."
  else
    match eventsHtml events dataShowYear with
    | Except.error m => Except.error m
    | Except.ok body =>
      Except.ok ("<div class=\"homeEvents row hasBackground\"><div class=\"wrapper\">"
        ++ body ++ "</div></div>")

/-- `'.replaceAll(' ', '+')'` acts characterwise. -/
def plusify (c : Char) : Char := if c = ' ' then '+' else c

/-- JS `s.split(',')` on the character list (an empty string yields one
empty part). -/
def splitComma (l : List Char) : List (List Char) :=
  match l with
  | [] => [[]]
  | c :: rest =>
    if c = ',' then [] :: splitComma rest
    else
      match splitComma rest with
      | t :: ts => (c :: t) :: ts
      | [] => [[c]]

/-- Scanner for the global replacement `.replaceAll(/ *, */g, ",")`.
`p` counts spaces read but not yet committed (they are dropped if a comma
follows, kept otherwise); `ac` records that a comma was just emitted, so
following spaces belong to that match's trailing ` *` and are dropped. -/
def normCommasGo : Bool → Nat → List Char → List Char
  | ac, p, [] => if ac then [] else List.replicate p ' '
  | ac, p, c :: rest =>
    if c = ' ' then
      if ac then normCommasGo ac 0 rest else normCommasGo ac (p + 1) rest
    else if c = ',' then ',' :: normCommasGo true 0 rest
    else (if ac then [] else List.replicate p ' ') ++ c :: normCommasGo false 0 rest

/-- `.replaceAll(/ *, */g, ",")`: each comma together with the spaces
around it becomes a bare comma. -/
def normCommas (l : List Char) : List Char := normCommasGo false 0 l

/-- The fixed calendar feed base URL of the module. -/
def CALENDAR_RSS_URL : String :=
  "https://api.calendar.moderncampus.net/pubcalendar/6c766263-8719-4764-a0df-af488b8d5bbe/rss?url=https%3A%2F%2Fwww.ferris.edu%2Fcalendar%2Fhomepage.htm&hash=true&end=2099-12-31"

/-- `appendToUrl(url, tags, categories)`: append `&tag=` once per term;
tag lists have spaces replaced by `+` then split on commas; category lists
are trimmed, have spaces around commas normalized away, spaces replaced by
`+`, then split on commas. -/
def appendToUrl (url : String) (tags categories : Option String) : String :=
  let newUrl := url
  let newUrl :=
    match tags with
    | none => newUrl
    | some ts =>
      (splitComma (ts.data.map plusify)).foldl
        (fun u t => u ++ "&tag=" ++ String.mk t) newUrl
  match categories with
  | none => newUrl
  | some cs =>
    (splitComma ((normCommas (jsTrimL cs.data)).map plusify)).foldl
      (fun u t => u ++ "&tag=" ++ String.mk t) newUrl

/-- One render target of `main`: the element's data attributes (already
null-normalized by `getDataAttr`) plus the outcome of fetching and parsing
its feed, abstracted to the item list (or a failure reason). -/
structure Target where
  begin_ : Option String
  end_ : Option String
  count : Option String
  tags : Option String
  categories : Option String
  showYear : Option String
  fetchResult : Except String (List RawItem)

/-- One iteration of the `main` loop for a target: fetch, select, format.
First component: the html assigned to the element (or the propagated
failure); second: error-sink messages produced along the way. -/
def processTarget (t : Target) : Except String String × List String :=
  match t.fetchResult with
  | Except.error m => (Except.error m, [])
  | Except.ok doc =>
    (getHtml (getEvents doc t.begin_ t.end_ t.count).1 t.showYear,
     (getEvents doc t.begin_ t.end_ t.count).2)

/-- The `main` loop over all render targets: sequential; the first failure
aborts the loop and propagates.  Components: the innerHTML updates
performed (in order), the error-sink messages, and the outcome. -/
def mainRun (targets : List Target) :
    List String × List String × Except String Unit :=
  match targets with
  | [] => ([], [], Except.ok ())
  | t :: ts =>
    match (processTarget t).1 with
    | Except.error m => ([], (processTarget t).2, Except.error m)
    | Except.ok h =>
      (h :: (mainRun ts).1, (processTarget t).2 ++ (mainRun ts).2.1,
       (mainRun ts).2.2)

/-- `main().catch(...)`: a rejection is logged, forwarded to the error
sink, and re-thrown (the promise stays rejected). -/
def mainWithCatch (targets : List Target) :
    List String × List String × Except String Unit :=
  match (mainRun targets).2.2 with
  | Except.error m =>
    ((mainRun targets).1, (mainRun targets).2.1 ++ [m], Except.error m)
  | Except.ok _ => mainRun targets

/-- A feed item with the given start and end strings and nothing else. -/
def mkItem (s e : String) : RawItem :=
  ⟨some (some s), some (some e), none, none, none⟩

/-- Five surviving one-day events, one per day of 2025-01-01..05, in
scrambled feed order. -/
def fiveItems : List RawItem :=
  [mkItem "2025-01-03" "2025-01-03", mkItem "2025-01-01" "2025-01-01",
   mkItem "2025-01-05" "2025-01-05", mkItem "2025-01-02" "2025-01-02",
   mkItem "2025-01-04" "2025-01-04"]

/-- The number of events `getEvents` actually keeps: the parsed count
(default 2), clamped to the number of available events, applied through JS
`slice(0, n)` semantics (a negative end index drops from the end). -/
def effCount (dataCount : Option String) (len : Nat) : Nat :=
  let n0 : Int := parsedCount dataCount
  let n1 : Int := if (len : Int) < n0 then (len : Int) else n0
  if n1 < 0 then len - n1.natAbs else n1.toNat

/-- A render target whose fetch succeeds with one surviving event. -/
def goodTarget : Target :=
  ⟨none, none, none, none, none, none,
   Except.ok [mkItem "2025-01-01" "2025-01-01"]⟩

/-- A render target whose fetch/parse fails. -/
def badTarget : Target :=
  ⟨none, none, none, none, none, none, Except.error "network failure"⟩

/-- Neither end of the list is JS whitespace (Boolean form). -/
def notWsAtEnds (l : List Char) : Bool :=
  (match l.head? with | some c => !jsWhitespace c | none => true)
  && (match l.getLast? with | some c => !jsWhitespace c | none => true)

/-- The claim's reading of tag-term extraction: split the attribute on
commas first, then replace the spaces of each term by `+`. -/
def tagTerms (ts : String) : List String :=
  (splitComma ts.data).map fun t => String.mk (t.map plusify)

/-- The claim's reading of category-term extraction: trim, normalize the
whitespace around commas away, split on commas, then replace the spaces of
each term by `+`. -/
def catTerms (cs : String) : List String :=
  (splitComma (normCommas (jsTrimL cs.data))).map fun t =>
    String.mk (t.map plusify)

/-- `"&tag=" ++ term`, once per term, in order. -/
def tagParams : List String → String
  | [] => ""
  | t :: ts => "&tag=" ++ t ++ tagParams ts

/-- The claim's month/day/year compaction rule: the start's label,
extended by `"-"` and the end's label exactly when the two differ. -/
def compactLabel (a b : String) : String := if a ≠ b then a ++ "-" ++ b else a

/-- Chronological (civil) strict order on parsed date-times: lexicographic
on (year, month, day, hour, minute). -/
def dtLtB (u v : JsDT) : Bool :=
  if u.year ≠ v.year then u.year < v.year
  else if u.month ≠ v.month then u.month < v.month
  else if u.day ≠ v.day then u.day < v.day
  else if u.hour ≠ v.hour then u.hour < v.hour
  else u.minute < v.minute

/-- The chronological key of an event: its parsed normalized start
(`none` for an absent or unparseable start). -/
def startKey (ev : CalendarEvent) : Option JsDT :=
  ev.start.bind fun s => jsDateParse (normStart s)

/-- Chronological order on start keys, an absent/unparseable start
ordering before every other key. -/
def chronoKeyLe : Option JsDT → Option JsDT → Bool
  | none, _ => true
  | some _, none => false
  | some u, some v => !dtLtB v u

/-! ## Sanity checks of the embedding on concrete values -/

example : removeTags (some (some "<p>Hello&nbsp; world</p>")) =
    "Hello&nbsp; world" := by decide

example : removeTags (some (some "<p>Hello  <b>big</b> world</p>")) =
    "Hello big world" := by decide

example : appendToUrl "U" (some "music, art") (some "food,  fun") =
    "U&tag=music&tag=+art&tag=food&tag=fun" := by decide

example : timeShortOf (some ⟨2025, 3, 1, 9, 0⟩) = "9:00 AM" := by decide

example : timeShortOf (some ⟨2025, 3, 2, 17, 0⟩) = "5:00 PM" := by decide

example : parseIntJs "2" = some 2 := by decide

example : parseIntJs "-5" = some (-5) := by decide

example : parseIntJs "3.7" = some 3 := by decide

example : parseIntJs "abc" = none := by decide

example : parseIntJs "0x10" = some 16 := by decide

example : jsSlice [1, 2, 3, 4, 5] (-1) = [1, 2, 3, 4] := by decide

example : jsDateParse "2025-01-05" = some ⟨2025, 1, 5, 0, 0⟩ := by decide

example : jsDateParse "2025-03-01T09:00" = some ⟨2025, 3, 1, 9, 0⟩ := by decide

example : jsDateParse "2025-02-30" = none := by decide

example : jsDateParse "garbage" = none := by decide

example : timeValue ⟨1970, 1, 1, 0, 0⟩ = 0 := by decide

example : timeValue ⟨1970, 1, 2, 0, 0⟩ = 86400000 := by decide

example : (eventWithinDateRange (some "2025-01-05") (some "2025-01-05")
    none none).1 = true := by decide

example : (eventWithinDateRange (some "garbage") (some "2025-01-05")
    none none) = (false, []) := by decide

/-! ## Theorems: supporting lemmas and the claims -/

/-- The NaN-aware `≤` holds exactly when both operands are real numbers in
order. -/
theorem jsLeN_eq_true_iff (a b : Option Int) :
    jsLeN a b = true ↔ ∃ x y, a = some x ∧ b = some y ∧ x ≤ y := by
  cases a <;> cases b <;> simp [jsLeN]

theorem jsLeN_none_right (a : Option Int) : jsLeN a none = false := by
  cases a <;> rfl

/-- `sortEvents` of a short list is the list itself, so the module's
`length > 1` guard around the sort is immaterial. -/
theorem sort_branch_eq (events : List CalendarEvent) :
    (if events.length > 1 then sortEvents events else events)
      = sortEvents events := by
  match events with
  | [] => rfl
  | [x] => rfl
  | x :: y :: rest => simp [List.length_cons]

/-- C9: formatting an empty event sequence returns exactly the literal
fallback string for every showYear value, and selection returns the empty
sequence (its normal, error-free result) whenever no events survive
filtering. -/
theorem c9_empty_selection_and_render :
    (∀ dataShowYear : Option String,
      getHtml [] dataShowYear = Except.ok "There are no events to display.")
    ∧ (∀ items dataBegin dataEnd dataCount,
        (surviveFilter items dataBegin dataEnd).1 = [] →
        (getEvents items dataBegin dataEnd dataCount).1 = []) := by
  refine ⟨fun _ => rfl, fun items b e c h => ?_⟩
  unfold getEvents
  simp [h]

/-- C9 witness: the empty feed instantiates both parts. -/
theorem c9_witness :
    (surviveFilter [] none none).1 = []
    ∧ (getEvents [] none none none).1 = []
    ∧ getHtml [] none = Except.ok "There are no events to display." :=
  ⟨rfl, c9_empty_selection_and_render.2 [] none none none rfl,
   c9_empty_selection_and_render.1 none⟩

/-- C4 counterexample: an item whose start is present but unparseable is
dropped silently — the range test is false with no error-sink message, the
selection output and log are empty, and the render cycle completes
normally instead of raising a fatal reported error. -/
theorem c4_counterexample :
    eventWithinDateRange (some "garbage") (some "2025-01-01") none none
      = (false, [])
    ∧ getEvents [⟨some (some "garbage"), some (some "2025-01-01"),
        none, none, none⟩] none none none = ([], [])
    ∧ getHtml [] none = Except.ok "There are no events to display." :=
  ⟨by decide, by decide, rfl⟩

/-- C4 (amended): an item whose start or end is present but does not parse
fails the overlap test and is silently dropped, with nothing sent to the
error sink; only a null start/end makes the filter log to the sink (still
returning false, not raising), and only a null start/end reaching the
formatter raises the fatal "Event date is invalid" error. -/
theorem c4_amended :
    (∀ es ee b r,
      jsDateParse (normStart es) = none ∨ jsDateParse (normEnd ee) = none →
      eventWithinDateRange (some es) (some ee) b r = (false, []))
    ∧ (∀ es ee b r, es = none ∨ ee = none →
      eventWithinDateRange es ee b r = (false, ["Event start or end is null"]))
    ∧ (∀ (ev : CalendarEvent) sy, ev.start = none ∨ ev.end_ = none →
      eventHtmlE ev sy = Except.error "Event date is invalid") := by
  refine ⟨fun es ee b r h => ?_, fun es ee b r h => ?_, fun ev sy h => ?_⟩
  · unfold eventWithinDateRange
    rcases h with h | h
    · simp [eventStartNum, h, jsLeN]
    · simp [eventEndNum, h, jsLeN_none_right]
  · rcases h with h | h
    · subst h; rfl
    · subst h; cases es <;> rfl
  · unfold eventHtmlE
    rcases h with h | h
    · rw [h]
    · rw [h]; cases hv : ev.start <;> rfl

/-- C4 (amended) witness: concrete instances of all three parts. -/
theorem c4_amended_witness :
    eventWithinDateRange (some "junk") (some "2025-05-05") none none
      = (false, [])
    ∧ eventWithinDateRange none (some "2025-05-05") none none
      = (false, ["Event start or end is null"])
    ∧ eventHtmlE ⟨none, some "2025-05-05", none, none, none⟩ none
      = Except.error "Event date is invalid" :=
  ⟨c4_amended.1 "junk" "2025-05-05" none none (Or.inl (by decide)),
   c4_amended.2.1 none (some "2025-05-05") none none (Or.inl rfl),
   c4_amended.2.2 ⟨none, some "2025-05-05", none, none, none⟩ none (Or.inl rfl)⟩

theorem insertEvent_length (x : CalendarEvent) (l : List CalendarEvent) :
    (insertEvent x l).length = l.length + 1 := by
  induction l with
  | nil => rfl
  | cons y ys ih =>
    unfold insertEvent
    by_cases h : startLt y x
    · simp [h, ih]
    · simp [h]

theorem sortEvents_length (l : List CalendarEvent) :
    (sortEvents l).length = l.length := by
  induction l with
  | nil => rfl
  | cons x xs ih => simp [sortEvents, insertEvent_length, ih]

/-- `getEvents` returns the first `effCount` entries of the stably sorted
survivor list (and passes the filter's error-sink log through). -/
theorem getEvents_characterization (items : List RawItem)
    (dataBegin dataEnd dataCount : Option String) :
    getEvents items dataBegin dataEnd dataCount =
      ((sortEvents (surviveFilter items dataBegin dataEnd).1).take
        (effCount dataCount (surviveFilter items dataBegin dataEnd).1.length),
       (surviveFilter items dataBegin dataEnd).2) := by
  unfold getEvents effCount
  set sf := (surviveFilter items dataBegin dataEnd).1 with hsf
  by_cases hz : sf.length = 0
  · have hnil : sf = [] := List.length_eq_zero.mp hz
    simp [hz, hnil, sortEvents]
  · simp only [hz, ite_false, sort_branch_eq, jsSlice, sortEvents_length]
    set n0 : Int := parsedCount dataCount with hn0
    by_cases hlt : (sf.length : Int) < n0
    · simp only [hlt, if_true, ite_true]
      have : ¬ ((sf.length : Int) < 0) := by omega
      simp [this]
    · simp only [hlt, ite_false]
      by_cases hneg : n0 < 0 <;> simp [hneg]

/-- C3 counterexample: with five available events, a count attribute of
`"-1"` does not behave as the default 2 — `parseInt` accepts `-1` and
`slice(0, -1)` then keeps four events, so the result differs from an
explicit count of 2. -/
theorem c3_counterexample :
    getEvents fiveItems none none (some "-1")
      ≠ getEvents fiveItems none none (some "2")
    ∧ (getEvents fiveItems none none (some "-1")).1.length = 4 := by
  exact ⟨by decide, by decide⟩

/-- C3 (amended): selection truncates the sorted survivors to `maxCount`;
`maxCount` is 2 when the count attribute is absent or `parseInt` of it is
NaN; an attribute whose `parseInt` is a non-negative `n` keeps the first
`min n len` events (in particular all of them, sorted, when `n ≥ len`);
but a negative parsed count is used as a negative `slice` end index,
dropping its absolute value off the end instead of behaving as 2. -/
theorem c3_amended :
    (∀ items b e, getEvents items b e none = getEvents items b e (some "2"))
    ∧ (∀ items b e c, parseIntJs c = none →
        getEvents items b e (some c) = getEvents items b e none)
    ∧ (∀ items b e c n, parseIntJs c = some n → 0 ≤ n →
        (getEvents items b e (some c)).1 =
          (sortEvents (surviveFilter items b e).1).take
            (min n.toNat (surviveFilter items b e).1.length))
    ∧ (∀ items b e c n, parseIntJs c = some n →
        ((surviveFilter items b e).1.length : Int) ≤ n →
        (getEvents items b e (some c)).1 =
          sortEvents (surviveFilter items b e).1)
    ∧ (∀ items b e c n, parseIntJs c = some n → n < 0 →
        (getEvents items b e (some c)).1 =
          (sortEvents (surviveFilter items b e).1).take
            ((surviveFilter items b e).1.length - n.natAbs)) := by
  refine ⟨fun items b e => ?_, fun items b e c h => ?_,
          fun items b e c n h hn => ?_, fun items b e c n h hn => ?_,
          fun items b e c n h hn => ?_⟩
  · rw [getEvents_characterization, getEvents_characterization]
    have h2 : parsedCount (some "2") = parsedCount none := by decide
    simp only [effCount, h2]
  · rw [getEvents_characterization, getEvents_characterization]
    have h2 : parsedCount (some c) = parsedCount none := by
      simp [parsedCount, h]
    simp only [effCount, h2]
  · rw [getEvents_characterization]
    have hc : parsedCount (some c) = n := by simp [parsedCount, h]
    simp only [effCount, hc]
    congr 1
    set len := (surviveFilter items b e).1.length
    by_cases hlt : (len : Int) < n
    · simp only [hlt, ite_true]
      have h1 : ¬ ((len : Int) < 0) := by omega
      simp only [h1, ite_false]
      omega
    · simp only [hlt, ite_false]
      have h1 : ¬ (n < 0) := by omega
      simp only [h1, ite_false]
      omega
  · rw [getEvents_characterization]
    have hc : parsedCount (some c) = n := by simp [parsedCount, h]
    set len := (surviveFilter items b e).1.length with hlen
    have hE : effCount (some c) len = len := by
      simp only [effCount, hc]
      by_cases hlt : (len : Int) < n
      · simp only [hlt, ite_true]
        have h1 : ¬ ((len : Int) < 0) := by omega
        simp only [h1, ite_false]
        omega
      · simp only [hlt, ite_false]
        have h1 : ¬ (n < 0) := by omega
        simp only [h1, ite_false]
        have : n = (len : Int) := by omega
        rw [this]
        omega
    rw [hE]
    exact List.take_of_length_le (by rw [sortEvents_length])
  · rw [getEvents_characterization]
    have hc : parsedCount (some c) = n := by simp [parsedCount, h]
    simp only [effCount, hc]
    congr 1
    set len := (surviveFilter items b e).1.length
    have hlt : ¬ ((len : Int) < n) := by omega
    simp only [hlt, ite_false, hn, if_pos]

/-- C3 (amended) witness: concrete instances of every part, on the
five-event fixture. -/
theorem c3_amended_witness :
    getEvents fiveItems none none none = getEvents fiveItems none none (some "2")
    ∧ getEvents fiveItems none none (some "abc")
        = getEvents fiveItems none none none
    ∧ (getEvents fiveItems none none (some "3")).1 =
        (sortEvents (surviveFilter fiveItems none none).1).take
          (min (Int.toNat 3) (surviveFilter fiveItems none none).1.length)
    ∧ (getEvents fiveItems none none (some "9")).1 =
        sortEvents (surviveFilter fiveItems none none).1
    ∧ (getEvents fiveItems none none (some "-1")).1 =
        (sortEvents (surviveFilter fiveItems none none).1).take
          ((surviveFilter fiveItems none none).1.length - Int.natAbs (-1)) :=
  ⟨c3_amended.1 fiveItems none none,
   c3_amended.2.1 fiveItems none none "abc" (by decide),
   c3_amended.2.2.1 fiveItems none none "3" 3 (by decide) (by decide),
   c3_amended.2.2.2.1 fiveItems none none "9" 9 (by decide) (by decide),
   c3_amended.2.2.2.2 fiveItems none none "-1" (-1) (by decide) (by decide)⟩

/-- C5 counterexample: a working target renders on its own, but behind a
failing target it is never processed — the loop aborts at the failure, so
the remaining render targets are affected (their cycles do not run),
contrary to the claim. -/
theorem c5_counterexample :
    (mainWithCatch [goodTarget]).1.length = 1
    ∧ (mainWithCatch [badTarget, goodTarget]).1.length = 0
    ∧ (mainWithCatch [badTarget, goodTarget]).2.2
        = Except.error "network failure" := by
  exact ⟨rfl, rfl, rfl⟩

theorem mainRun_prefix_ok_fail (pre : List Target) (t : Target)
    (post : List Target) (m : String)
    (hpre : ∀ x ∈ pre, ∃ h, (processTarget x).1 = Except.ok h)
    (ht : (processTarget t).1 = Except.error m) :
    (mainRun (pre ++ t :: post)).2.2 = Except.error m
    ∧ (mainRun (pre ++ t :: post)).1.length = pre.length := by
  induction pre with
  | nil =>
    simp only [List.nil_append]
    unfold mainRun
    rw [ht]
    exact ⟨rfl, rfl⟩
  | cons x xs ih =>
    obtain ⟨hx, hhx⟩ := hpre x (List.mem_cons_self x xs)
    have ihh := ih fun y hy => hpre y (List.mem_cons_of_mem x hy)
    simp only [List.cons_append]
    unfold mainRun
    rw [hhx]
    simp only [List.length_cons]
    exact ⟨ihh.1, by rw [ihh.2]⟩

/-- C5 (amended): a fetch/parse failure is caught at the top level, logged
to the error sink, and surfaces as a rejected operation to the caller; the
targets processed before the failing one keep their updates, but the
remaining targets after it are skipped (their cycles do not run). -/
theorem c5_amended (pre : List Target) (t : Target) (post : List Target)
    (m : String)
    (hpre : ∀ x ∈ pre, ∃ h, (processTarget x).1 = Except.ok h)
    (ht : (processTarget t).1 = Except.error m) :
    (mainWithCatch (pre ++ t :: post)).2.2 = Except.error m
    ∧ m ∈ (mainWithCatch (pre ++ t :: post)).2.1
    ∧ (mainWithCatch (pre ++ t :: post)).1.length = pre.length := by
  obtain ⟨h1, h2⟩ := mainRun_prefix_ok_fail pre t post m hpre ht
  unfold mainWithCatch
  rw [h1]
  exact ⟨rfl, by simp, h2⟩

/-- C5 (amended) witness: one successful target before, one failing
target, one skipped target after. -/
theorem c5_amended_witness :
    (mainWithCatch [goodTarget, badTarget, goodTarget]).2.2
        = Except.error "network failure"
    ∧ "network failure" ∈ (mainWithCatch [goodTarget, badTarget, goodTarget]).2.1
    ∧ (mainWithCatch [goodTarget, badTarget, goodTarget]).1.length
        = [goodTarget].length :=
  c5_amended [goodTarget] badTarget [goodTarget] "network failure"
    (by
      intro x hx
      simp only [List.mem_singleton] at hx
      subst hx
      exact ⟨_, rfl⟩)
    rfl

theorem collapseSpaces_head (l : List Char) :
    (collapseSpaces l).head? = l.head? := by
  induction l using collapseSpaces.induct with
  | case1 => rfl
  | case2 c => rfl
  | case3 a b rest hcond ih =>
    rw [collapseSpaces, if_pos hcond, ih]
    simp only [Bool.and_eq_true, decide_eq_true_eq] at hcond
    rw [hcond.1, hcond.2]
    rfl
  | case4 a b rest hcond ih =>
    rw [collapseSpaces, if_neg hcond]
    rfl

theorem collapseSpaces_chain (l : List Char) :
    (collapseSpaces l).Chain' (fun a b => ¬(a = ' ' ∧ b = ' ')) := by
  induction l using collapseSpaces.induct with
  | case1 => simp [collapseSpaces]
  | case2 c => simp [collapseSpaces]
  | case3 a b rest hcond ih =>
    rw [collapseSpaces, if_pos hcond]
    exact ih
  | case4 a b rest hcond ih =>
    rw [collapseSpaces, if_neg hcond]
    rw [List.chain'_cons']
    refine ⟨fun y hy => ?_, ih⟩
    rw [collapseSpaces_head] at hy
    simp only [List.head?_cons, Option.mem_def, Option.some_inj] at hy
    subst hy
    simp only [Bool.and_eq_true, decide_eq_true_eq, not_and] at hcond ⊢
    exact hcond

theorem head_dropWhile_false (p : Char → Bool) (l : List Char) :
    ∀ c ∈ (l.dropWhile p).head?, p c = false := by
  induction l with
  | nil => intro c hc; simp [List.dropWhile] at hc
  | cons a t ih =>
    intro c hc
    rw [List.dropWhile_cons] at hc
    by_cases hp : p a
    · rw [if_pos hp] at hc
      exact ih c hc
    · rw [if_neg hp] at hc
      simp only [List.head?_cons, Option.mem_def, Option.some_inj] at hc
      subst hc
      simpa using hp

theorem getLast_of_suffix {l1 l2 : List Char} (h : l1 <:+ l2) (hne : l1 ≠ []) :
    l1.getLast? = l2.getLast? := by
  obtain ⟨t, rfl⟩ := h
  exact (List.getLast?_append_of_ne_nil t hne).symm

/-- `jsTrimL` keeps a contiguous middle part of its input. -/
theorem jsTrimL_middle (l : List Char) : jsTrimL l <:+: l := by
  have h1 : l.dropWhile jsWhitespace <:+ l := List.dropWhile_suffix _
  have h2 : jsTrimL l <+: l.dropWhile jsWhitespace := by
    have h3 := List.reverse_prefix.mpr
      (@List.dropWhile_suffix Char ((l.dropWhile jsWhitespace).reverse) jsWhitespace)
    rwa [List.reverse_reverse] at h3
  exact List.IsInfix.trans (List.IsPrefix.isInfix h2) (List.IsSuffix.isInfix h1)

/-- Both ends of the word are kept free of JS whitespace by `jsTrimL`. -/
theorem jsTrimL_ends (l : List Char) :
    (∀ c ∈ (jsTrimL l).head?, jsWhitespace c = false)
    ∧ (∀ c ∈ (jsTrimL l).getLast?, jsWhitespace c = false) := by
  set A := l.dropWhile jsWhitespace with hA
  set B := A.reverse.dropWhile jsWhitespace with hB
  have hres : jsTrimL l = B.reverse := rfl
  constructor
  · intro c hc
    rw [hres] at hc
    rcases hBn : B with _ | ⟨b0, Bt⟩
    · rw [hBn] at hc; simp at hc
    · have hBne : B ≠ [] := by rw [hBn]; simp
      have e1 : (B.reverse).head? = B.getLast? := by
        rw [← List.getLast?_reverse, List.reverse_reverse]
      have e2 : B.getLast? = A.reverse.getLast? :=
        getLast_of_suffix (hB ▸ List.dropWhile_suffix _) hBne
      have e3 : A.reverse.getLast? = A.head? := List.getLast?_reverse A
      rw [e1, e2, e3] at hc
      exact head_dropWhile_false jsWhitespace l c (hA ▸ hc)
  · intro c hc
    rw [hres] at hc
    rw [List.getLast?_reverse] at hc
    exact head_dropWhile_false jsWhitespace A.reverse c (hB ▸ hc)

theorem notWsAtEnds_of (l : List Char)
    (h1 : ∀ c ∈ l.head?, jsWhitespace c = false)
    (h2 : ∀ c ∈ l.getLast?, jsWhitespace c = false) :
    notWsAtEnds l = true := by
  unfold notWsAtEnds
  rcases hh : l.head? with _ | c
  · rcases hg : l.getLast? with _ | d
    · rfl
    · have := h2 d (by rw [hg]; rfl)
      simp [this]
  · have := h1 c (by rw [hh]; rfl)
    rcases hg : l.getLast? with _ | d
    · simp [this]
    · have h2d := h2 d (by rw [hg]; rfl)
      simp [this, h2d]

/-- C7 counterexample: the claimed example is wrong — `removeTags` does no
entity decoding and only collapses runs of ordinary spaces, so
`"<p>Hello&nbsp; world</p>"` sanitizes to `"Hello&nbsp; world"`, not to
`"Hello world"` (likewise with a literal no-break-space character). -/
theorem c7_counterexample :
    removeTags (some (some "<p>Hello&nbsp; world</p>")) = "Hello&nbsp; world"
    ∧ removeTags (some (some "<p>Hello&nbsp; world</p>")) ≠ "Hello world"
    ∧ removeTags (some (some "<p>Hello\u00A0 world</p>")) = "Hello\u00A0 world"
    ∧ removeTags (some (some "<p>Hello\u00A0 world</p>")) ≠ "Hello world" :=
  ⟨by decide, by decide, by decide, by decide⟩

/-- C7 (amended): sanitization replaces each markup tag with one space,
collapses runs of multiple spaces, and trims the ends (so the output never
contains two adjacent spaces and never starts or ends with whitespace); a
null or absent description yields `""`; the spec's example input yields
`"Hello&nbsp; world"` (entity text kept verbatim). -/
theorem c7_amended :
    removeTags none = ""
    ∧ removeTags (some none) = ""
    ∧ removeTags (some (some "<p>Hello&nbsp; world</p>")) = "Hello&nbsp; world"
    ∧ removeTags (some (some "<p>Hello  <b>big</b> world</p>"))
        = "Hello big world"
    ∧ (∀ s : String,
        (removeTags (some (some s))).data.Chain'
          (fun a b => ¬(a = ' ' ∧ b = ' '))
        ∧ notWsAtEnds (removeTags (some (some s))).data = true) := by
  refine ⟨rfl, rfl, by decide, by decide, fun s => ⟨?_, ?_⟩⟩
  · show (jsTrimL (collapseSpaces (stripTags s.data))).Chain' _
    exact List.Chain'.infix (collapseSpaces_chain (stripTags s.data))
      (jsTrimL_middle _)
  · show notWsAtEnds (jsTrimL (collapseSpaces (stripTags s.data))) = true
    exact notWsAtEnds_of _ (jsTrimL_ends _).1 (jsTrimL_ends _).2

theorem read2_some {l : List Char} {v : Nat} {r : List Char}
    (h : read2 l = some (v, r)) :
    ∃ a b, l = a :: b :: r ∧ isDigitB a = true ∧ isDigitB b = true
      ∧ v = 10 * dv a + dv b := by
  match l with
  | [] => simp [read2] at h
  | [a] => simp [read2] at h
  | a :: b :: t =>
    simp only [read2] at h
    by_cases hd : isDigitB a && isDigitB b
    · rw [if_pos hd] at h
      simp only [Option.some.injEq, Prod.mk.injEq] at h
      obtain ⟨hv, ht⟩ := h
      rw [Bool.and_eq_true] at hd
      exact ⟨a, b, by rw [ht], hd.1, hd.2, hv.symm⟩
    · rw [if_neg hd] at h
      cases h

theorem expectChar_some {c : Char} {l r : List Char}
    (h : expectChar c l = some r) : l = c :: r := by
  match l with
  | [] => simp [expectChar] at h
  | x :: t =>
    simp only [expectChar] at h
    by_cases hx : x = c
    · rw [if_pos hx] at h
      simp only [Option.some.injEq] at h
      rw [hx, h]
    · rw [if_neg hx] at h
      cases h

theorem read4_some {l : List Char} {v : Nat} {r : List Char}
    (h : read4 l = some (v, r)) :
    ∃ a b c d, l = a :: b :: c :: d :: r
      ∧ isDigitB a = true ∧ isDigitB b = true
      ∧ isDigitB c = true ∧ isDigitB d = true
      ∧ v = 1000 * dv a + 100 * dv b + 10 * dv c + dv d := by
  unfold read4 at h
  cases h1 : read2 l with
  | none => simp only [h1] at h; cases h
  | some p =>
    obtain ⟨hi, l1⟩ := p
    simp only [h1] at h
    cases h2 : read2 l1 with
    | none => simp only [h2] at h; cases h
    | some q =>
      obtain ⟨lo, l2⟩ := q
      simp only [h2, Option.some.injEq, Prod.mk.injEq] at h
      obtain ⟨hv, hr⟩ := h
      subst hr
      obtain ⟨a, b, hab, da, db, hvab⟩ := read2_some h1
      obtain ⟨c, d, hcd, dc, dd, hvcd⟩ := read2_some h2
      refine ⟨a, b, c, d, ?_, da, db, dc, dd, ?_⟩
      · rw [hab, hcd]
      · omega

/-- Inversion of `parse16`: a successful parse forces the exact 16-character
shape, digit characters in every numeric position, the field values, and
the validity guards. -/
theorem parse16_some {l : List Char} {u : JsDT} (h : parse16 l = some u) :
    ∃ y1 y2 y3 y4 m1 m2 d1 d2 h1 h2 n1 n2,
      l = [y1, y2, y3, y4, '-', m1, m2, '-', d1, d2, 'T', h1, h2, ':', n1, n2]
      ∧ isDigitB y1 = true ∧ isDigitB y2 = true ∧ isDigitB y3 = true
      ∧ isDigitB y4 = true ∧ isDigitB m1 = true ∧ isDigitB m2 = true
      ∧ isDigitB d1 = true ∧ isDigitB d2 = true ∧ isDigitB h1 = true
      ∧ isDigitB h2 = true ∧ isDigitB n1 = true ∧ isDigitB n2 = true
      ∧ u = ⟨1000 * dv y1 + 100 * dv y2 + 10 * dv y3 + dv y4,
             10 * dv m1 + dv m2, 10 * dv d1 + dv d2,
             10 * dv h1 + dv h2, 10 * dv n1 + dv n2⟩
      ∧ 1 ≤ u.month ∧ u.month ≤ 12 ∧ 1 ≤ u.day
      ∧ u.day ≤ daysInMonth u.year u.month ∧ u.hour ≤ 23 ∧ u.minute ≤ 59 := by
  unfold parse16 at h
  cases hA : read4 l with
  | none => simp only [hA] at h; cases h
  | some p =>
  obtain ⟨y, l1⟩ := p
  simp only [hA] at h
  cases hB : expectChar '-' l1 with
  | none => simp only [hB] at h; cases h
  | some l2 =>
  simp only [hB] at h
  cases hC : read2 l2 with
  | none => simp only [hC] at h; cases h
  | some p2 =>
  obtain ⟨mo, l3⟩ := p2
  simp only [hC] at h
  cases hD : expectChar '-' l3 with
  | none => simp only [hD] at h; cases h
  | some l4 =>
  simp only [hD] at h
  cases hE : read2 l4 with
  | none => simp only [hE] at h; cases h
  | some p3 =>
  obtain ⟨d, l5⟩ := p3
  simp only [hE] at h
  cases hF : expectChar 'T' l5 with
  | none => simp only [hF] at h; cases h
  | some l6 =>
  simp only [hF] at h
  cases hG : read2 l6 with
  | none => simp only [hG] at h; cases h
  | some p4 =>
  obtain ⟨hh, l7⟩ := p4
  simp only [hG] at h
  cases hH : expectChar ':' l7 with
  | none => simp only [hH] at h; cases h
  | some l8 =>
  simp only [hH] at h
  cases hI : read2 l8 with
  | none => simp only [hI] at h; cases h
  | some p5 =>
  obtain ⟨mi, l9⟩ := p5
  simp only [hI] at h
  cases l9 with
  | cons c9 t9 => exact Option.noConfusion h
  | nil =>
  by_cases hg : (1 ≤ mo && mo ≤ 12 && 1 ≤ d && d ≤ daysInMonth y mo
      && hh ≤ 23 && mi ≤ 59) = true
  · rw [if_pos hg] at h
    simp only [Option.some.injEq] at h
    subst h
    simp only [Bool.and_eq_true, decide_eq_true_eq] at hg
    obtain ⟨a1, b1, c1, d1c, hl2, da1, db1, dc1, dd1, hy⟩ := read4_some hA
    have hl1 : l1 = '-' :: l2 := expectChar_some hB
    obtain ⟨m1, m2, hl3, dm1, dm2, hmo⟩ := read2_some hC
    have hl3b : l3 = '-' :: l4 := expectChar_some hD
    obtain ⟨dd1c, dd2c, hl5, dD1, dD2, hd⟩ := read2_some hE
    have hl5b : l5 = 'T' :: l6 := expectChar_some hF
    obtain ⟨hh1, hh2, hl7, dH1, dH2, hhh⟩ := read2_some hG
    have hl7b : l7 = ':' :: l8 := expectChar_some hH
    obtain ⟨n1, n2, hl9, dN1, dN2, hmi⟩ := read2_some hI
    refine ⟨a1, b1, c1, d1c, m1, m2, dd1c, dd2c, hh1, hh2, n1, n2, ?_,
      da1, db1, dc1, dd1, dm1, dm2, dD1, dD2, dH1, dH2, dN1, dN2, ?_,
      ?_, ?_, ?_, ?_, ?_, ?_⟩
    · rw [hl2, hl1, hl3, hl3b, hl5, hl5b, hl7, hl7b, hl9]
    · rw [← hy, ← hmo, ← hd, ← hhh, ← hmi]
    · simpa [← hmo] using hg.1.1.1.1.1
    · simpa [← hmo] using hg.1.1.1.1.2
    · simpa [← hd] using hg.1.1.1.2
    · simpa [← hy, ← hmo, ← hd] using hg.1.1.2
    · simpa [← hhh] using hg.1.2
    · simpa [← hmi] using hg.2
  · rw [if_neg hg] at h
    cases h

theorem daysInMonth_le31 (y m : Nat) : daysInMonth y m ≤ 31 := by
  unfold daysInMonth
  split
  · split <;> omega
  all_goals omega

theorem digit_dv_le {c : Char} (h : isDigitB c = true) : dv c ≤ 9 := by
  unfold isDigitB at h
  rw [Bool.and_eq_true, decide_eq_true_eq, decide_eq_true_eq] at h
  unfold dv
  omega

/-- Every time value of a date in the grammar lies strictly inside the
safe-integer range, so an unbounded range endpoint never excludes it. -/
theorem timeValue_bounds {u : JsDT} (hy : u.year ≤ 9999) (hm : u.month ≤ 12)
    (hd : u.day ≤ 31) (hh : u.hour ≤ 23) (hmi : u.minute ≤ 59) :
    minSafeInteger < timeValue u ∧ timeValue u < maxSafeInteger := by
  obtain ⟨y, m, d, hr, mi⟩ := u
  simp only at hy hm hd hh hmi
  unfold timeValue daysFromCivil minSafeInteger maxSafeInteger
  simp only
  by_cases hm2 : m ≤ 2
  · simp only [hm2, if_pos]
    constructor <;> omega
  · simp only [hm2, ite_false]
    constructor <;> omega

theorem parse16_bounds {l : List Char} {u : JsDT} (h : parse16 l = some u) :
    minSafeInteger < timeValue u ∧ timeValue u < maxSafeInteger := by
  obtain ⟨y1, y2, y3, y4, m1, m2, d1, d2, h1, h2, n1, n2, hl,
    dy1, dy2, dy3, dy4, dm1, dm2, dd1, dd2, dh1, dh2, dn1, dn2,
    hu, hmo1, hmo2, hday1, hday2, hhr, hmin⟩ := parse16_some h
  have hy : u.year ≤ 9999 := by
    rw [hu]
    have := digit_dv_le dy1
    have := digit_dv_le dy2
    have := digit_dv_le dy3
    have := digit_dv_le dy4
    simp only
    omega
  have hd31 : u.day ≤ 31 := le_trans hday2 (daysInMonth_le31 _ _)
  exact timeValue_bounds hy hmo2 hd31 hhr hmin

theorem jsDateParse_bounds {s : String} {u : JsDT}
    (h : jsDateParse s = some u) :
    minSafeInteger < timeValue u ∧ timeValue u < maxSafeInteger := by
  unfold jsDateParse jsDateParseL at h
  by_cases h10 : s.data.length = 10
  · rw [if_pos h10] at h
    exact parse16_bounds h
  · rw [if_neg h10] at h
    exact parse16_bounds h

/-- C1: the overlap test returns true iff the normalized event start is at
most the range end and the range begin is at most the normalized event end
(NaN comparisons failing); an absent range begin/end behaves as
`MIN_SAFE_INTEGER`/`MAX_SAFE_INTEGER`, which never excludes a parseable
event (unbounded range → true); and an event touching either boundary
(end = rangeBegin, or start = rangeEnd) is included. -/
theorem c1_overlap_test :
    (∀ (es ee : String) (b r : Option String),
      (eventWithinDateRange (some es) (some ee) b r).1 = true ↔
        ((∃ sv rv, eventStartNum es = some sv ∧ endDateRangeNum r = some rv
            ∧ sv ≤ rv)
         ∧ (∃ bv ev, beginDateRangeNum b = some bv ∧ eventEndNum ee = some ev
            ∧ bv ≤ ev)))
    ∧ (∀ (es ee : String) (u v : JsDT),
        jsDateParse (normStart es) = some u →
        jsDateParse (normEnd ee) = some v →
        (eventWithinDateRange (some es) (some ee) none none).1 = true)
    ∧ (∀ (es ee : String) (b r : Option String) (sv ev rv : Int),
        eventStartNum es = some sv → eventEndNum ee = some ev →
        beginDateRangeNum b = some ev → endDateRangeNum r = some rv →
        sv ≤ ev → ev ≤ rv →
        (eventWithinDateRange (some es) (some ee) b r).1 = true)
    ∧ (∀ (es ee : String) (b r : Option String) (sv ev bv : Int),
        eventStartNum es = some sv → eventEndNum ee = some ev →
        beginDateRangeNum b = some bv → endDateRangeNum r = some sv →
        bv ≤ sv → sv ≤ ev →
        (eventWithinDateRange (some es) (some ee) b r).1 = true) := by
  refine ⟨fun es ee b r => ?_, fun es ee u v hu hv => ?_,
          fun es ee b r sv ev rv h1 h2 h3 h4 h5 h6 => ?_,
          fun es ee b r sv ev bv h1 h2 h3 h4 h5 h6 => ?_⟩
  · show (jsLeN (eventStartNum es) (endDateRangeNum r)
        && jsLeN (beginDateRangeNum b) (eventEndNum ee)) = true ↔ _
    rw [Bool.and_eq_true, jsLeN_eq_true_iff, jsLeN_eq_true_iff]
  · show (jsLeN (eventStartNum es) (endDateRangeNum none)
        && jsLeN (beginDateRangeNum none) (eventEndNum ee)) = true
    have hb1 := jsDateParse_bounds hu
    have hb2 := jsDateParse_bounds hv
    unfold eventStartNum eventEndNum endDateRangeNum beginDateRangeNum
    rw [hu, hv]
    simp only [Option.map_some', jsLeN]
    rw [Bool.and_eq_true, decide_eq_true_eq, decide_eq_true_eq]
    unfold minSafeInteger maxSafeInteger at *
    omega
  · show (jsLeN (eventStartNum es) (endDateRangeNum r)
        && jsLeN (beginDateRangeNum b) (eventEndNum ee)) = true
    rw [h1, h2, h3, h4]
    simp only [jsLeN]
    rw [Bool.and_eq_true, decide_eq_true_eq, decide_eq_true_eq]
    omega
  · show (jsLeN (eventStartNum es) (endDateRangeNum r)
        && jsLeN (beginDateRangeNum b) (eventEndNum ee)) = true
    rw [h1, h2, h3, h4]
    simp only [jsLeN]
    rw [Bool.and_eq_true, decide_eq_true_eq, decide_eq_true_eq]
    omega

/-- C1 witness: concrete boundary instances — an event ending exactly at
the range begin and an event starting exactly at the range end are both
included, and an unbounded range includes a parseable event. -/
theorem c1_overlap_test_witness :
    (eventWithinDateRange (some "2025-01-05") (some "2025-01-06")
      none none).1 = true
    ∧ (eventWithinDateRange (some "2025-01-05") (some "2025-01-10")
      (some "2025-01-10T23:59") none).1 = true
    ∧ (eventWithinDateRange (some "2025-01-05") (some "2025-01-10")
      none (some "2025-01-05T00:00")).1 = true :=
  ⟨c1_overlap_test.2.1 "2025-01-05" "2025-01-06" ⟨2025, 1, 5, 0, 0⟩
      ⟨2025, 1, 6, 23, 59⟩ (by decide) (by decide),
   c1_overlap_test.2.2.1 "2025-01-05" "2025-01-10"
      (some "2025-01-10T23:59") none
      (timeValue ⟨2025, 1, 5, 0, 0⟩) (timeValue ⟨2025, 1, 10, 23, 59⟩)
      maxSafeInteger (by decide) (by decide) (by decide) (by decide)
      (by decide) (by decide),
   c1_overlap_test.2.2.2 "2025-01-05" "2025-01-10"
      none (some "2025-01-05T00:00")
      (timeValue ⟨2025, 1, 5, 0, 0⟩) (timeValue ⟨2025, 1, 10, 23, 59⟩)
      minSafeInteger (by decide) (by decide) (by decide) (by decide)
      (by decide) (by decide)⟩

theorem splitComma_ne_nil (l : List Char) : splitComma l ≠ [] := by
  induction l with
  | nil => simp [splitComma]
  | cons c rest ih =>
    unfold splitComma
    by_cases hc : c = ','
    · simp [hc]
    · simp only [hc, ite_false]
      cases h : splitComma rest with
      | nil => exact absurd h ih
      | cons t ts => simp

/-- Replacing spaces by `+` commutes with splitting on commas. -/
theorem splitComma_map_plusify (l : List Char) :
    splitComma (l.map plusify) = (splitComma l).map (List.map plusify) := by
  induction l with
  | nil => rfl
  | cons c rest ih =>
    by_cases hc : c = ','
    · subst hc
      show splitComma (',' :: rest.map plusify) = _
      unfold splitComma
      simp only [if_pos rfl, ih]
      rfl
    · have hpc : plusify c ≠ ',' := by
        unfold plusify
        by_cases hs : c = ' '
        · simp [hs]
        · simp [hs, hc]
      show splitComma (plusify c :: rest.map plusify) = _
      unfold splitComma
      simp only [hpc, ite_false, hc, ih]
      cases h : splitComma rest with
      | nil => exact absurd h (splitComma_ne_nil rest)
      | cons t ts => simp [plusify]

theorem foldl_tagParams (terms : List (List Char)) (u : String) :
    terms.foldl (fun a t => a ++ "&tag=" ++ String.mk t) u
      = u ++ tagParams (terms.map String.mk) := by
  induction terms generalizing u with
  | nil => simp [tagParams, String.append_empty]
  | cons t ts ih =>
    simp only [List.foldl_cons, List.map_cons, tagParams]
    rw [ih]
    rw [String.append_assoc, String.append_assoc, String.append_assoc]

/-- C8: the built URL is the base URL with `&tag=<term>` appended once per
term, all tag terms first and then all category terms, where tag terms are
the comma-separated pieces of the tag attribute with spaces turned into
`+`, and category terms additionally have the whitespace around commas
normalized away (after trimming) before splitting; the spec's example
contributes exactly two parameters per attribute. -/
theorem c8_append_to_url :
    (∀ (url : String) (ts cs : String),
      appendToUrl url (some ts) (some cs)
        = url ++ tagParams (tagTerms ts) ++ tagParams (catTerms cs))
    ∧ (∀ (url : String) (ts : String),
      appendToUrl url (some ts) none = url ++ tagParams (tagTerms ts))
    ∧ (∀ (url : String) (cs : String),
      appendToUrl url none (some cs) = url ++ tagParams (catTerms cs))
    ∧ (∀ url : String, appendToUrl url none none = url)
    ∧ tagTerms "music, art" = ["music", "+art"]
    ∧ catTerms "food,  fun" = ["food", "fun"]
    ∧ appendToUrl CALENDAR_RSS_URL (some "music, art") (some "food,  fun")
        = CALENDAR_RSS_URL ++ "&tag=music&tag=+art&tag=food&tag=fun" := by
  have hmain : ∀ (url ts cs : String),
      appendToUrl url (some ts) (some cs)
        = url ++ tagParams (tagTerms ts) ++ tagParams (catTerms cs) := by
    intro url ts cs
    show ((splitComma (ts.data.map plusify)).foldl _ url
        |> (splitComma ((normCommas (jsTrimL cs.data)).map plusify)).foldl _)
      = _
    rw [foldl_tagParams, foldl_tagParams]
    rw [splitComma_map_plusify, splitComma_map_plusify]
    unfold tagTerms catTerms
    rw [List.map_map, List.map_map]
    rfl
  refine ⟨hmain, fun url ts => ?_, fun url cs => ?_, fun url => rfl,
    by decide, by decide, ?_⟩
  · show (splitComma (ts.data.map plusify)).foldl _ url = _
    rw [foldl_tagParams, splitComma_map_plusify]
    unfold tagTerms
    rw [List.map_map]
    rfl
  · show (splitComma ((normCommas (jsTrimL cs.data)).map plusify)).foldl _ url = _
    rw [foldl_tagParams, splitComma_map_plusify]
    unfold catTerms
    rw [List.map_map]
    rfl
  · rw [hmain]
    have h1 : tagParams (tagTerms "music, art") = "&tag=music&tag=+art" := by
      decide
    have h2 : tagParams (catTerms "food,  fun") = "&tag=food&tag=fun" := by
      decide
    rw [h1, h2, String.append_assoc]
    rfl

theorem mem_insertEvent {x y : CalendarEvent} {l : List CalendarEvent}
    (h : y ∈ insertEvent x l) : y = x ∨ y ∈ l := by
  induction l with
  | nil => simpa [insertEvent] using h
  | cons z zs ih =>
    unfold insertEvent at h
    by_cases hz : startLt z x
    · rw [if_pos hz] at h
      rcases List.mem_cons.mp h with h1 | h1
      · exact Or.inr (by rw [h1]; exact List.mem_cons_self z zs)
      · rcases ih h1 with h2 | h2
        · exact Or.inl h2
        · exact Or.inr (List.mem_cons_of_mem z h2)
    · rw [if_neg hz] at h
      rcases List.mem_cons.mp h with h1 | h1
      · exact Or.inl h1
      · exact Or.inr h1

theorem mem_sortEvents {y : CalendarEvent} {l : List CalendarEvent}
    (h : y ∈ sortEvents l) : y ∈ l := by
  induction l with
  | nil => simp [sortEvents] at h
  | cons x xs ih =>
    unfold sortEvents at h
    rcases mem_insertEvent h with h1 | h1
    · rw [h1]; exact List.mem_cons_self x xs
    · exact List.mem_cons_of_mem x (ih h1)

/-- Every event the filter keeps passed the overlap test. -/
theorem mem_surviveFilter {ev : CalendarEvent} {items : List RawItem}
    {b e : Option String} (h : ev ∈ (surviveFilter items b e).1) :
    (eventWithinDateRange ev.start ev.end_ b e).1 = true := by
  induction items with
  | nil => simp [surviveFilter] at h
  | cons it rest ih =>
    rcases hst : it.start with _ | st <;> rcases hen : it.end_ with _ | en <;>
      simp only [surviveFilter, hst, hen] at h
    · exact ih h
    · exact ih h
    · exact ih h
    · by_cases hr : (eventWithinDateRange st en b e).1
      · rw [if_pos hr] at h
        rcases List.mem_cons.mp h with h1 | h1
        · rw [h1]
          exact hr
        · exact ih h1
      · rw [if_neg hr] at h
        exact ih h

/-- The overlap test succeeds only on non-null inputs. -/
theorem ewdr_true_some {s e b r : Option String}
    (h : (eventWithinDateRange s e b r).1 = true) :
    s ≠ none ∧ e ≠ none := by
  cases s with
  | none => simp [eventWithinDateRange] at h
  | some ss =>
    cases e with
    | none => simp [eventWithinDateRange] at h
    | some ee => simp

theorem eventHtmlE_ok {ev : CalendarEvent} {sy : Option String}
    {st en : String} (hst : ev.start = some st) (hen : ev.end_ = some en) :
    ∃ f, eventHtmlE ev sy = Except.ok f := by
  unfold eventHtmlE
  rw [hst, hen]
  exact ⟨_, rfl⟩

theorem eventsHtml_ok {evs : List CalendarEvent} {sy : Option String}
    (h : ∀ ev ∈ evs, ev.start ≠ none ∧ ev.end_ ≠ none) :
    ∃ s, eventsHtml evs sy = Except.ok s := by
  induction evs with
  | nil => exact ⟨"", rfl⟩
  | cons ev es ih =>
    obtain ⟨hs, he⟩ := h ev (List.mem_cons_self ev es)
    rcases hst : ev.start with _ | st
    · exact absurd hst hs
    rcases hen : ev.end_ with _ | en
    · exact absurd hen he
    obtain ⟨body, hb⟩ := ih fun x hx => h x (List.mem_cons_of_mem ev hx)
    obtain ⟨frag, hf⟩ := @eventHtmlE_ok ev sy st en hst hen
    refine ⟨frag ++ body, ?_⟩
    unfold eventsHtml
    rw [hf, hb]

theorem getHtml_ok {evs : List CalendarEvent} {sy : Option String}
    (h : ∀ ev ∈ evs, ev.start ≠ none ∧ ev.end_ ≠ none) :
    ∃ s, getHtml evs sy = Except.ok s := by
  by_cases hz : evs.length = 0
  · exact ⟨"There are no events to display.", by simp [getHtml, hz]⟩
  · obtain ⟨body, hb⟩ := @eventsHtml_ok evs sy h
    refine ⟨"<div class=\"homeEvents row hasBackground\"><div class=\"wrapper\">"
      ++ body ++ "</div></div>", ?_⟩
    unfold getHtml
    rw [if_neg hz, hb]

/-- C10: every event selected by `getEvents` has a non-null start and end
(the overlap test rejects null fields), so the formatter's fatal
"Event date is invalid" branch is unreachable on selection output — the
render of a selection always succeeds. -/
theorem c10_selection_nonnull (items : List RawItem)
    (b e c : Option String) :
    (∀ ev, ev ∈ (getEvents items b e c).1 →
      ev.start ≠ none ∧ ev.end_ ≠ none)
    ∧ (∀ sy, ∃ html, getHtml (getEvents items b e c).1 sy
        = Except.ok html) := by
  have hmem : ∀ ev, ev ∈ (getEvents items b e c).1 →
      ev ∈ (surviveFilter items b e).1 := by
    intro ev hev
    rw [getEvents_characterization] at hev
    exact mem_sortEvents ((List.take_sublist _ _).subset hev)
  refine ⟨fun ev hev => ewdr_true_some (mem_surviveFilter (hmem ev hev)),
    fun sy => getHtml_ok fun ev hev =>
      ewdr_true_some (mem_surviveFilter (hmem ev hev))⟩

/-- C10 witness: a concrete selected event has non-null fields and its
render succeeds. -/
theorem c10_selection_nonnull_witness :
    ((⟨some "2025-01-01", some "2025-01-01", none, none, none⟩ :
      CalendarEvent).start ≠ none
    ∧ (⟨some "2025-01-01", some "2025-01-01", none, none, none⟩ :
      CalendarEvent).end_ ≠ none)
    ∧ (∃ html, getHtml
        (getEvents [mkItem "2025-01-01" "2025-01-01"] none none none).1 none
        = Except.ok html) :=
  ⟨(c10_selection_nonnull [mkItem "2025-01-01" "2025-01-01"] none none none).1
      ⟨some "2025-01-01", some "2025-01-01", none, none, none⟩ (by decide),
   (c10_selection_nonnull [mkItem "2025-01-01" "2025-01-01"] none none none).2
      none⟩

/-- C6: for each formatted event the month slot holds the compaction of the
start and end short month names, the day and year slots follow the same
rule on the day and year labels, the year span is present in the output if
and only if the show-year attribute is exactly `"true"`, and the time line
`"<start time> - <end time>"` (short time format) is present if and only
if both timestamps contain a time component. -/
theorem c6_formatter_labels (s e : String) (ti de li : Option (Option String))
    (sy : Option String) :
    eventHtmlE ⟨some s, some e, ti, de, li⟩ sy = Except.ok (
      "\n                <div class=\"eventWrap columns col2\">\n                    <div class=\"date\">\n                        <div class=\"dateWrap\"><span class=\"month\">"
      ++ compactLabel (monthShortOf (jsDateParse (normStart s)))
          (monthShortOf (jsDateParse (normEnd e)))
      ++ "</span><span class=\"day\">"
      ++ compactLabel (dayNumericOf (jsDateParse (normStart s)))
          (dayNumericOf (jsDateParse (normEnd e)))
      ++ "</span>\n            "
      ++ (if sy = some "true" then
            "\n                            <span class=\"year\">"
            ++ compactLabel (yearNumericOf (jsDateParse (normStart s)))
                (yearNumericOf (jsDateParse (normEnd e)))
            ++ "</span>\n                "
          else "")
      ++ "\n                        </div>\n                    </div>\n                    <div class=\"eventDescription\">\n                        <div class=\"title\"><a href=\""
      ++ jsTemplate li ++ "\">" ++ jsTemplate ti
      ++ "</a></div>\n            "
      ++ (if hasT s && hasT e then
            "\n                        <div class=\"time\">"
            ++ (timeShortOf (jsDateParse (normStart s)) ++ " - "
                ++ timeShortOf (jsDateParse (normEnd e)))
            ++ "</div>\n                "
          else "")
      ++ "\n                        <div class=\"description\"><span>"
      ++ removeTags de
      ++ "</span></div>\n                        <div class=\"read-more\"><a href=\""
      ++ jsTemplate li
      ++ "\">Read more ≫</a></div>\n                    </div>\n                </div>\n            ") := by
  unfold eventHtmlE compactLabel
  cases sy with
  | none => simp
  | some v =>
    by_cases hv : v = "true" <;> simp [hv]

theorem char_toNat_inj {a b : Char} (h : a.toNat = b.toNat) : a = b := by
  apply Char.ext
  unfold Char.toNat at h
  exact UInt32.toNat.inj h

theorem charListLt_cons (a b : Char) (as bs : List Char) :
    charListLt (a :: as) (b :: bs)
      = if a.toNat < b.toNat then true
        else if b.toNat < a.toNat then false
        else charListLt as bs := by
  show (if charLtB a b then true
    else if charLtB b a then false else charListLt as bs) = _
  unfold charLtB
  by_cases h1 : a.toNat < b.toNat
  · simp [h1]
  · by_cases h2 : b.toNat < a.toNat <;> simp [h1, h2]

theorem charListLt_irrefl (l : List Char) : charListLt l l = false := by
  induction l with
  | nil => rfl
  | cons a as ih =>
    rw [charListLt_cons]
    simp [ih]

theorem charListLt_asymm : ∀ {l1 l2 : List Char},
    charListLt l1 l2 = true → charListLt l2 l1 = false
  | [], [], h => by cases h
  | [], _ :: _, _ => rfl
  | _ :: _, [], h => by cases h
  | a :: as, b :: bs, h => by
    rw [charListLt_cons] at h ⊢
    by_cases h1 : a.toNat < b.toNat
    · have h2 : ¬ b.toNat < a.toNat := by omega
      simp [h1, h2]
    · by_cases h2 : b.toNat < a.toNat
      · rw [if_neg h1, if_pos h2] at h
        cases h
      · rw [if_neg h1, if_neg h2] at h
        simp only [h1, h2, ite_false]
        exact charListLt_asymm h

theorem charListLt_trans : ∀ {l1 l2 l3 : List Char},
    charListLt l1 l2 = true → charListLt l2 l3 = true →
    charListLt l1 l3 = true
  | [], [], _, h1, _ => by cases h1
  | [], _ :: _, [], _, h2 => by cases h2
  | [], _ :: _, _ :: _, _, _ => rfl
  | _ :: _, [], _, h1, _ => by cases h1
  | _ :: _, _ :: _, [], _, h2 => by cases h2
  | a :: as, b :: bs, c :: cs, h1, h2 => by
    rw [charListLt_cons] at h1 h2 ⊢
    by_cases hab : a.toNat < b.toNat <;> by_cases hbc : b.toNat < c.toNat
    · simp [show a.toNat < c.toNat by omega]
    · rw [if_neg hbc] at h2
      by_cases hcb : c.toNat < b.toNat
      · rw [if_pos hcb] at h2; cases h2
      · rw [if_neg hcb] at h2
        have hbceq : b = c := char_toNat_inj (by omega)
        subst hbceq
        simp [hab]
    · rw [if_neg hab] at h1
      by_cases hba : b.toNat < a.toNat
      · rw [if_pos hba] at h1; cases h1
      · rw [if_neg hba] at h1
        have habeq : a = b := char_toNat_inj (by omega)
        subst habeq
        simp [hbc]
    · rw [if_neg hab] at h1
      rw [if_neg hbc] at h2
      by_cases hba : b.toNat < a.toNat
      · rw [if_pos hba] at h1; cases h1
      · by_cases hcb : c.toNat < b.toNat
        · rw [if_pos hcb] at h2; cases h2
        · rw [if_neg hba] at h1
          rw [if_neg hcb] at h2
          have h3 : ¬ a.toNat < c.toNat := by omega
          have h4 : ¬ c.toNat < a.toNat := by omega
          rw [if_neg h3, if_neg h4]
          exact charListLt_trans h1 h2

theorem charListLt_eq_of_not : ∀ {l1 l2 : List Char},
    charListLt l1 l2 = false → charListLt l2 l1 = false → l1 = l2
  | [], [], _, _ => rfl
  | [], _ :: _, h1, _ => by cases h1
  | _ :: _, [], _, h2 => by cases h2
  | a :: as, b :: bs, h1, h2 => by
    rw [charListLt_cons] at h1 h2
    by_cases hab : a.toNat < b.toNat
    · rw [if_pos hab] at h1; cases h1
    · by_cases hba : b.toNat < a.toNat
      · rw [if_pos hba] at h2; cases h2
      · rw [if_neg hab, if_neg hba] at h1
        rw [if_neg hba, if_neg hab] at h2
        have : a = b := char_toNat_inj (by omega)
        rw [this, charListLt_eq_of_not h1 h2]

/-- Lexicographic comparison splits at equal-length prefixes. -/
theorem blockLt : ∀ (xs ys as bs : List Char), xs.length = ys.length →
    charListLt (xs ++ as) (ys ++ bs)
      = if xs = ys then charListLt as bs else charListLt xs ys := by
  intro xs
  induction xs with
  | nil =>
    intro ys as bs h
    have hy : ys = [] := List.length_eq_zero.mp h.symm
    subst hy
    simp
  | cons x xs2 ih =>
    intro ys as bs h
    cases ys with
    | nil => simp at h
    | cons y ys2 =>
      simp only [List.cons_append]
      rw [charListLt_cons]
      by_cases h1 : x.toNat < y.toNat
      · have hne : ¬ (x :: xs2 = y :: ys2) := by
          intro hh
          injection hh with hx _
          rw [hx] at h1
          omega
        rw [if_pos h1, if_neg hne, charListLt_cons, if_pos h1]
      · by_cases h2 : y.toNat < x.toNat
        · have hne : ¬ (x :: xs2 = y :: ys2) := by
            intro hh
            injection hh with hx _
            rw [hx] at h2
            omega
          rw [if_neg h1, if_pos h2, if_neg hne, charListLt_cons,
            if_neg h1, if_pos h2]
        · have hxy : x = y := char_toNat_inj (by omega)
          subst hxy
          have hlen : xs2.length = ys2.length := by
            simpa using h
          rw [if_neg h1, if_neg h2, ih ys2 as bs hlen]
          by_cases h3 : xs2 = ys2
          · rw [if_pos h3, if_pos (by rw [h3])]
          · have hne : ¬ (x :: xs2 = x :: ys2) := by
              intro hh
              injection hh with _ ht
              exact h3 ht
            rw [if_neg h3, if_neg hne, charListLt_cons]
            simp [h1]

theorem charListLt_same_head (c : Char) (as bs : List Char) :
    charListLt (c :: as) (c :: bs) = charListLt as bs := by
  rw [charListLt_cons]
  simp

theorem digit_bounds {c : Char} (h : isDigitB c = true) :
    48 ≤ c.toNat ∧ c.toNat ≤ 57 := by
  unfold isDigitB at h
  rw [Bool.and_eq_true, decide_eq_true_eq, decide_eq_true_eq] at h
  exact h

/-- Lexicographic order of equal-width digit blocks is numeric order. -/
theorem digits_lt2 {a b c d : Char} (da : isDigitB a = true)
    (db : isDigitB b = true) (dc : isDigitB c = true)
    (dd : isDigitB d = true) :
    charListLt [a, b] [c, d]
      = decide (10 * dv a + dv b < 10 * dv c + dv d) := by
  obtain ⟨la, ha⟩ := digit_bounds da
  obtain ⟨lb, hb⟩ := digit_bounds db
  obtain ⟨lc, hc⟩ := digit_bounds dc
  obtain ⟨ld, hd⟩ := digit_bounds dd
  unfold dv
  rw [charListLt_cons]
  by_cases h1 : a.toNat < c.toNat
  · rw [if_pos h1]
    symm
    rw [decide_eq_true_eq]
    omega
  · by_cases h2 : c.toNat < a.toNat
    · rw [if_neg h1, if_pos h2]
      symm
      rw [decide_eq_false_iff_not]
      omega
    · rw [if_neg h1, if_neg h2, charListLt_cons]
      by_cases h3 : b.toNat < d.toNat
      · rw [if_pos h3]
        symm
        rw [decide_eq_true_eq]
        omega
      · by_cases h4 : d.toNat < b.toNat
        · rw [if_neg h3, if_pos h4]
          symm
          rw [decide_eq_false_iff_not]
          omega
        · rw [if_neg h3, if_neg h4]
          show false = _
          symm
          rw [decide_eq_false_iff_not]
          omega

/-- Equality of equal-width digit blocks is numeric equality. -/
theorem digits_eq2 {a b c d : Char} (da : isDigitB a = true)
    (db : isDigitB b = true) (dc : isDigitB c = true)
    (dd : isDigitB d = true) :
    ([a, b] = [c, d]) ↔ (10 * dv a + dv b = 10 * dv c + dv d) := by
  obtain ⟨la, ha⟩ := digit_bounds da
  obtain ⟨lb, hb⟩ := digit_bounds db
  obtain ⟨lc, hc⟩ := digit_bounds dc
  obtain ⟨ld, hd⟩ := digit_bounds dd
  constructor
  · intro h
    injection h with h1 h2
    injection h2 with h2 _
    rw [h1, h2]
  · intro h
    unfold dv at h
    have hac : a = c := char_toNat_inj (by omega)
    have hbd : b = d := char_toNat_inj (by omega)
    rw [hac, hbd]

set_option maxHeartbeats 2000000 in
/-- JS string order of two parseable `YYYY-MM-DDTHH:MM` strings is exactly
chronological order of the parsed date-times. -/
theorem parse16_lt {l1 l2 : List Char} {u v : JsDT}
    (h1 : parse16 l1 = some u) (h2 : parse16 l2 = some v) :
    charListLt l1 l2 = dtLtB u v := by
  obtain ⟨y1a, y2a, y3a, y4a, m1a, m2a, d1a, d2a, h1a, h2a, n1a, n2a, hl1,
    a01, a02, a03, a04, a05, a06, a07, a08, a09, a10, a11, a12,
    hu, _, _, _, _, _, _⟩ := parse16_some h1
  obtain ⟨y1b, y2b, y3b, y4b, m1b, m2b, d1b, d2b, h1b, h2b, n1b, n2b, hl2,
    b01, b02, b03, b04, b05, b06, b07, b08, b09, b10, b11, b12,
    hv, _, _, _, _, _, _⟩ := parse16_some h2
  subst hl1 hl2 hu hv
  have e01 := digit_dv_le a01
  have e02 := digit_dv_le a02
  have e03 := digit_dv_le a03
  have e04 := digit_dv_le a04
  have e05 := digit_dv_le a05
  have e06 := digit_dv_le a06
  have e07 := digit_dv_le a07
  have e08 := digit_dv_le a08
  have e09 := digit_dv_le a09
  have e10 := digit_dv_le a10
  have e11 := digit_dv_le a11
  have e12 := digit_dv_le a12
  have f01 := digit_dv_le b01
  have f02 := digit_dv_le b02
  have f03 := digit_dv_le b03
  have f04 := digit_dv_le b04
  have f05 := digit_dv_le b05
  have f06 := digit_dv_le b06
  have f07 := digit_dv_le b07
  have f08 := digit_dv_le b08
  have f09 := digit_dv_le b09
  have f10 := digit_dv_le b10
  have f11 := digit_dv_le b11
  have f12 := digit_dv_le b12
  show charListLt
    ([y1a, y2a] ++ ([y3a, y4a] ++ '-' :: ([m1a, m2a] ++ '-' ::
      ([d1a, d2a] ++ 'T' :: ([h1a, h2a] ++ ':' :: [n1a, n2a])))))
    ([y1b, y2b] ++ ([y3b, y4b] ++ '-' :: ([m1b, m2b] ++ '-' ::
      ([d1b, d2b] ++ 'T' :: ([h1b, h2b] ++ ':' :: [n1b, n2b]))))) = _
  rw [blockLt [y1a, y2a] [y1b, y2b] _ _ rfl]
  rw [blockLt [y3a, y4a] [y3b, y4b] _ _ rfl]
  rw [charListLt_same_head '-']
  rw [blockLt [m1a, m2a] [m1b, m2b] _ _ rfl]
  rw [charListLt_same_head '-']
  rw [blockLt [d1a, d2a] [d1b, d2b] _ _ rfl]
  rw [charListLt_same_head 'T']
  rw [blockLt [h1a, h2a] [h1b, h2b] _ _ rfl]
  rw [charListLt_same_head ':']
  rw [digits_lt2 a01 a02 b01 b02, digits_lt2 a03 a04 b03 b04,
    digits_lt2 a05 a06 b05 b06, digits_lt2 a07 a08 b07 b08,
    digits_lt2 a09 a10 b09 b10, digits_lt2 a11 a12 b11 b12]
  simp only [digits_eq2 a01 a02 b01 b02, digits_eq2 a03 a04 b03 b04,
    digits_eq2 a05 a06 b05 b06, digits_eq2 a07 a08 b07 b08,
    digits_eq2 a09 a10 b09 b10]
  unfold dtLtB
  simp only
  split_ifs <;>
    first
      | rfl
      | (symm; rw [decide_eq_true_eq]; omega)
      | (symm; rw [decide_eq_false_iff_not]; omega)
      | (rw [decide_eq_decide]; constructor <;> (intro; omega))
      | omega

theorem tSuf00_data : (String.mk tSuf00).data = tSuf00 := rfl

/-- A successful parse of the normalized start string happens in exactly
two shapes: the string already had a time component and is itself the
16-character form, or it is a bare 10-character date completed by
`T00:00`. -/
theorem normStart_parse_shape {s : String} {u : JsDT}
    (h : jsDateParse (normStart s) = some u) :
    (hasT s = true ∧ parse16 s.data = some u)
    ∨ (hasT s = false ∧ s.data.length = 10
        ∧ parse16 (s.data ++ tSuf00) = some u) := by
  unfold normStart at h
  by_cases ht : hasT s
  · rw [if_pos ht] at h
    unfold jsDateParse jsDateParseL at h
    by_cases h10 : s.data.length = 10
    · rw [if_pos h10] at h
      exfalso
      obtain ⟨y1, y2, y3, y4, m1, m2, d1, d2, h1, h2, n1, n2, hl,
        d01, d02, d03, d04, dm1, dm2, dd1, dd2, dh1, dh2, dn1, dn2,
        _, _, _, _, _, _, _⟩ := parse16_some h
      have hsplit : s.data = [y1, y2, y3, y4, '-', m1, m2, '-', d1, d2] := by
        have heq : s.data ++ tSuf00
            = [y1, y2, y3, y4, '-', m1, m2, '-', d1, d2]
              ++ ['T', h1, h2, ':', n1, n2] := by
          rw [hl]
          rfl
        exact (List.append_inj_of_length_left heq (by rw [h10]; rfl)).1
      have hmem : 'T' ∈ s.data := List.mem_of_elem_eq_true ht
      rw [hsplit] at hmem
      simp only [List.mem_cons, List.mem_singleton, List.not_mem_nil,
        or_false] at hmem
      rcases hmem with h' | h' | h' | h' | h' | h' | h' | h' | h' | h'
      · rw [← h'] at d01; exact absurd d01 (by decide)
      · rw [← h'] at d02; exact absurd d02 (by decide)
      · rw [← h'] at d03; exact absurd d03 (by decide)
      · rw [← h'] at d04; exact absurd d04 (by decide)
      · exact absurd h' (by decide)
      · rw [← h'] at dm1; exact absurd dm1 (by decide)
      · rw [← h'] at dm2; exact absurd dm2 (by decide)
      · exact absurd h' (by decide)
      · rw [← h'] at dd1; exact absurd dd1 (by decide)
      · rw [← h'] at dd2; exact absurd dd2 (by decide)
    · rw [if_neg h10] at h
      exact Or.inl ⟨ht, h⟩
  · rw [if_neg ht] at h
    unfold jsDateParse jsDateParseL at h
    rw [String.data_append] at h
    rw [show ("T00:00" : String).data = tSuf00 from rfl] at h
    by_cases h10 : (s.data ++ tSuf00).length = 10
    · rw [if_pos h10] at h
      exfalso
      have hlen4 : s.data.length = 4 := by
        rw [List.length_append] at h10
        simp only [tSuf00, List.length_cons, List.length_nil] at h10
        omega
      obtain ⟨y1, y2, y3, y4, m1, m2, d1, d2, h1, h2, n1, n2, hl, _⟩ :=
        parse16_some h
      have hT : (s.data ++ tSuf00 ++ tSuf00)[4]? = some '-' := by
        rw [hl]
        rfl
      rw [List.append_assoc, List.getElem?_append_right (by omega), hlen4]
        at hT
      simp [tSuf00] at hT
    · rw [if_neg h10] at h
      have hlen : s.data.length = 10 := by
        obtain ⟨_, _, _, _, _, _, _, _, _, _, _, _, hl, _⟩ := parse16_some h
        have := congrArg List.length hl
        rw [List.length_append] at this
        simp [tSuf00] at this
        simpa using this
      exact Or.inr ⟨by simpa using ht, hlen, h⟩

theorem charListLt_self_append (l : List Char) (c : Char) (cs : List Char) :
    charListLt l (l ++ c :: cs) = true := by
  induction l with
  | nil => rfl
  | cons a as ih =>
    rw [List.cons_append, charListLt_same_head]
    exact ih

/-- Transfer of the sort comparator to chronological order: if the start
string of `y` is not JS-below the start string of `x`, then the parsed
normalized start of `y` is not chronologically below that of `x`. -/
theorem dtLtB_false_of_charListLt_false {sx sy : String} {u v : JsDT}
    (hu : jsDateParse (normStart sx) = some u)
    (hv : jsDateParse (normStart sy) = some v)
    (h : charListLt sy.data sx.data = false) :
    dtLtB v u = false := by
  by_contra hc
  rw [Bool.not_eq_false] at hc
  rcases normStart_parse_shape hu with ⟨htx, hpx⟩ | ⟨htx, hlx, hpx⟩ <;>
    rcases normStart_parse_shape hv with ⟨hty, hpy⟩ | ⟨hty, hly, hpy⟩
  · have hlt := parse16_lt hpy hpx
    rw [hc, h] at hlt
    cases hlt
  · have hlt := parse16_lt hpy hpx
    rw [hc] at hlt
    obtain ⟨y1, y2, y3, y4, m1, m2, d1, d2, h1, h2, n1, n2, hlz, _⟩ :=
      parse16_some hpx
    rw [show ([y1, y2, y3, y4, '-', m1, m2, '-', d1, d2, 'T',
        h1, h2, ':', n1, n2] : List Char)
      = [y1, y2, y3, y4, '-', m1, m2, '-', d1, d2]
        ++ 'T' :: [h1, h2, ':', n1, n2] from rfl] at hlz
    rw [hlz] at hlt
    rw [blockLt sy.data [y1, y2, y3, y4, '-', m1, m2, '-', d1, d2] _ _
      (by rw [hly]; rfl)] at hlt
    by_cases heq : sy.data = [y1, y2, y3, y4, '-', m1, m2, '-', d1, d2]
    · have hpre : charListLt sy.data sx.data = true := by
        rw [hlz, ← heq]
        exact charListLt_self_append _ _ _
      rw [hpre] at h
      cases h
    · rw [if_neg heq] at hlt
      have : charListLt sy.data sx.data = true := by
        rw [hlz]
        rw [show sy.data = sy.data ++ [] from (List.append_nil _).symm]
        rw [blockLt sy.data [y1, y2, y3, y4, '-', m1, m2, '-', d1, d2] _ _
          (by rw [hly]; rfl)]
        rw [if_neg heq]
        exact hlt
      rw [this] at h
      cases h
  · have hlt := parse16_lt hpy hpx
    rw [hc] at hlt
    obtain ⟨y1, y2, y3, y4, m1, m2, d1, d2, h1, h2, n1, n2, hlz,
      _, _, _, _, _, _, _, _, dh1, dh2, dn1, dn2, _⟩ := parse16_some hpy
    rw [show ([y1, y2, y3, y4, '-', m1, m2, '-', d1, d2, 'T',
        h1, h2, ':', n1, n2] : List Char)
      = [y1, y2, y3, y4, '-', m1, m2, '-', d1, d2]
        ++ 'T' :: [h1, h2, ':', n1, n2] from rfl] at hlz
    rw [hlz] at hlt
    rw [show (tSuf00 : List Char) = 'T' :: ['0', '0', ':', '0', '0']
      from rfl] at hlt
    rw [blockLt [y1, y2, y3, y4, '-', m1, m2, '-', d1, d2] sx.data _ _
      (by rw [hlx]; rfl)] at hlt
    by_cases heq : ([y1, y2, y3, y4, '-', m1, m2, '-', d1, d2] :
        List Char) = sx.data
    · rw [if_pos heq, charListLt_same_head] at hlt
      rw [show (['0', '0', ':', '0', '0'] : List Char)
        = ['0', '0'] ++ ':' :: ['0', '0'] from rfl,
        show ([h1, h2, ':', n1, n2] : List Char)
        = [h1, h2] ++ ':' :: [n1, n2] from rfl] at hlt
      rw [blockLt [h1, h2] ['0', '0'] _ _ rfl] at hlt
      by_cases heq2 : ([h1, h2] : List Char) = ['0', '0']
      · rw [if_pos heq2, charListLt_same_head] at hlt
        rw [digits_lt2 dn1 dn2 (by decide) (by decide)] at hlt
        rw [show dv '0' = 0 from rfl] at hlt
        simp at hlt
      · rw [if_neg heq2] at hlt
        rw [digits_lt2 dh1 dh2 (by decide) (by decide)] at hlt
        rw [show dv '0' = 0 from rfl] at hlt
        simp at hlt
    · rw [if_neg heq] at hlt
      have : charListLt sy.data sx.data = true := by
        rw [hlz]
        rw [show sx.data = sx.data ++ [] from (List.append_nil _).symm]
        rw [blockLt [y1, y2, y3, y4, '-', m1, m2, '-', d1, d2] sx.data _ _
          (by rw [hlx]; rfl)]
        rw [if_neg heq]
        exact hlt
      rw [this] at h
      cases h
  · have hlt := parse16_lt hpy hpx
    rw [hc] at hlt
    rw [blockLt sy.data sx.data _ _ (by rw [hly, hlx])] at hlt
    by_cases heq : sy.data = sx.data
    · rw [if_pos heq, charListLt_irrefl] at hlt
      cases hlt
    · rw [if_neg heq] at hlt
      rw [hlt] at h
      cases h

theorem startLt_asymm {a b : CalendarEvent} (h : startLt a b = true) :
    startLt b a = false := by
  obtain ⟨sa, ea, ta, da, la⟩ := a
  obtain ⟨sb, eb, tb, db, lb⟩ := b
  rcases sa with _ | sa <;> rcases sb with _ | sb <;>
    simp only [startLt] at h ⊢ <;>
    first
      | rfl
      | (cases h)
      | exact charListLt_asymm h

theorem startLt_false_trans {a b c : CalendarEvent}
    (h1 : startLt b a = false) (h2 : startLt c b = false) :
    startLt c a = false := by
  obtain ⟨sa, ea, ta, da, la⟩ := a
  obtain ⟨sb, eb, tb, db, lb⟩ := b
  obtain ⟨sc, ec, tc, dc, lc⟩ := c
  rcases sa with _ | sa <;> rcases sb with _ | sb <;>
    rcases sc with _ | sc <;>
    simp only [startLt] at h1 h2 ⊢ <;>
    first
      | rfl
      | (cases h1)
      | (cases h2)
      | skip
  by_contra hca
  rw [Bool.not_eq_false] at hca
  by_cases hbc : charListLt sb.data sc.data = true
  · have := charListLt_trans hbc hca
    rw [this] at h1
    cases h1
  · have heq := charListLt_eq_of_not h2 (Bool.eq_false_iff.mpr hbc)
    rw [← heq] at h1
    rw [hca] at h1
    cases h1

theorem startLt_eq_key {a b : CalendarEvent} (h : a.start = b.start) :
    startLt a b = false := by
  obtain ⟨sa, ea, ta, da, la⟩ := a
  obtain ⟨sb, eb, tb, db, lb⟩ := b
  simp only at h
  subst h
  rcases sa with _ | sa <;> simp only [startLt] <;>
    first
      | rfl
      | exact charListLt_irrefl _

theorem pairwise_insertEvent {x : CalendarEvent} {l : List CalendarEvent}
    (hl : l.Pairwise fun a b => startLt b a = false) :
    (insertEvent x l).Pairwise fun a b => startLt b a = false := by
  induction l with
  | nil => simp [insertEvent]
  | cons y ys ih =>
    rw [List.pairwise_cons] at hl
    obtain ⟨hy, hys⟩ := hl
    unfold insertEvent
    by_cases hxy : startLt y x
    · rw [if_pos hxy]
      rw [List.pairwise_cons]
      refine ⟨fun z hz => ?_, ih hys⟩
      rcases mem_insertEvent hz with h1 | h1
      · rw [h1]
        exact startLt_asymm hxy
      · exact hy z h1
    · rw [if_neg hxy]
      rw [List.pairwise_cons]
      refine ⟨fun z hz => ?_, List.pairwise_cons.mpr ⟨hy, hys⟩⟩
      rcases List.mem_cons.mp hz with h1 | h1
      · rw [h1]
        exact Bool.eq_false_iff.mpr hxy
      · exact startLt_false_trans (Bool.eq_false_iff.mpr hxy) (hy z h1)

theorem sortEvents_pairwise (l : List CalendarEvent) :
    (sortEvents l).Pairwise fun a b => startLt b a = false := by
  induction l with
  | nil => simp [sortEvents]
  | cons x xs ih => exact pairwise_insertEvent ih

theorem filter_insertEvent (x : CalendarEvent) (l : List CalendarEvent)
    (k : Option String) :
    (insertEvent x l).filter (fun z => decide (z.start = k))
      = if x.start = k then
          x :: l.filter (fun z => decide (z.start = k))
        else l.filter (fun z => decide (z.start = k)) := by
  induction l with
  | nil =>
    by_cases hx : x.start = k <;>
      simp [insertEvent, List.filter, hx]
  | cons y ys ih =>
    unfold insertEvent
    by_cases hxy : startLt y x
    · rw [if_pos hxy]
      rw [List.filter_cons, List.filter_cons]
      by_cases hy : y.start = k
      · by_cases hx : x.start = k
        · exfalso
          have : startLt y x = false := startLt_eq_key (by rw [hy, hx])
          rw [this] at hxy
          cases hxy
        · simp [hy, hx, ih]
      · by_cases hx : x.start = k <;> simp [hy, hx, ih]
    · rw [if_neg hxy]
      rw [List.filter_cons]
      by_cases hx : x.start = k <;> simp [hx, List.filter_cons]

theorem sortEvents_filter (l : List CalendarEvent) (k : Option String) :
    (sortEvents l).filter (fun z => decide (z.start = k))
      = l.filter (fun z => decide (z.start = k)) := by
  induction l with
  | nil => rfl
  | cons x xs ih =>
    show (insertEvent x (sortEvents xs)).filter _ = _
    rw [filter_insertEvent, List.filter_cons, ih]
    by_cases hx : x.start = k <;> simp [hx]

/-- A successful overlap test forces a present, parseable start string. -/
theorem ewdr_true_startParse {st en b r : Option String}
    (h : (eventWithinDateRange st en b r).1 = true) :
    ∃ s u, st = some s ∧ jsDateParse (normStart s) = some u := by
  rcases st with _ | s
  · simp [eventWithinDateRange] at h
  rcases en with _ | e
  · simp [eventWithinDateRange] at h
  change (jsLeN (eventStartNum s) (endDateRangeNum r)
    && jsLeN (beginDateRangeNum b) (eventEndNum e)) = true at h
  rw [Bool.and_eq_true] at h
  obtain ⟨h1, _⟩ := h
  rw [jsLeN_eq_true_iff] at h1
  obtain ⟨sv, rv, hsv, _, _⟩ := h1
  unfold eventStartNum at hsv
  rw [Option.map_eq_some'] at hsv
  obtain ⟨u, hu, _⟩ := hsv
  exact ⟨s, u, rfl, hu⟩

/-- C2: selection output is sorted ascending by start timestamp (absent or
unparseable starts, were any to survive, ordering first), ties keep the
original feed order (for every start key, the selected events with that key
form a subsequence of the survivors in feed order), and the spec's concrete
instance selects the two earliest events ascending. -/
theorem c2_selection_sorted :
    (∀ items b e c, ((getEvents items b e c).1).Pairwise
        fun x y => chronoKeyLe (startKey x) (startKey y) = true)
    ∧ (∀ items b e c k,
        ((getEvents items b e c).1.filter
          fun z => decide (z.start = k)).Sublist
          ((surviveFilter items b e).1.filter
            fun z => decide (z.start = k)))
    ∧ getEvents [mkItem "2025-01-10" "2025-01-10",
        mkItem "2025-01-05" "2025-01-05",
        mkItem "2025-01-20" "2025-01-20"] none none (some "2")
      = ([⟨some "2025-01-05", some "2025-01-05", none, none, none⟩,
          ⟨some "2025-01-10", some "2025-01-10", none, none, none⟩],
         []) := by
  refine ⟨fun items b e c => ?_, fun items b e c k => ?_, by decide⟩
  · rw [getEvents_characterization]
    dsimp only
    have hsorted := sortEvents_pairwise (surviveFilter items b e).1
    have htake := List.Pairwise.sublist
      (List.take_sublist (effCount c (surviveFilter items b e).1.length)
        (sortEvents (surviveFilter items b e).1)) hsorted
    refine List.Pairwise.imp_of_mem ?_ htake
    intro x y hx hy hxy
    have hx' : x ∈ (surviveFilter items b e).1 :=
      mem_sortEvents ((List.take_sublist _ _).subset hx)
    have hy' : y ∈ (surviveFilter items b e).1 :=
      mem_sortEvents ((List.take_sublist _ _).subset hy)
    obtain ⟨sx, u, hsx, hu⟩ := ewdr_true_startParse (mem_surviveFilter hx')
    obtain ⟨sy, v, hsy, hv⟩ := ewdr_true_startParse (mem_surviveFilter hy')
    have hlt : charListLt sy.data sx.data = false := by
      have := hxy
      unfold startLt at this
      rw [hsx, hsy] at this
      exact this
    have hdt := dtLtB_false_of_charListLt_false hu hv hlt
    have hkx : startKey x = some u := by
      unfold startKey
      rw [hsx]
      simpa using hu
    have hky : startKey y = some v := by
      unfold startKey
      rw [hsy]
      simpa using hv
    rw [hkx, hky]
    show (!dtLtB v u) = true
    rw [hdt]
    rfl
  · rw [getEvents_characterization]
    dsimp only
    have h1 : List.Sublist
        (((sortEvents (surviveFilter items b e).1).take
          (effCount c (surviveFilter items b e).1.length)).filter
          (fun z => decide (z.start = k)))
        ((sortEvents (surviveFilter items b e).1).filter
          (fun z => decide (z.start = k))) :=
      List.Sublist.filter _ (List.take_sublist _ _)
    rw [sortEvents_filter] at h1
    exact h1
